import Mathlib

/-!
# ScreenDoc — verification of the timecode / export / placeholder pipeline

A shallow embedding, in Lean 4, of the pure transformation core of the
ScreenDoc repository (a browser app turning screen recordings into
documentation), together with proofs and refutations of the specified
properties of that core.

Modelling conventions, used throughout:

* JavaScript strings are modelled as `List Char` (`Str` below).  Lone UTF-16
  surrogates are not modelled.
* JavaScript numbers are modelled exactly, as `JSNum`: either NaN, one of the
  two infinities, or a finite *rational* value.  IEEE-754 double rounding and
  overflow are abstracted away (all arithmetic appearing in the embedded code
  is exact small-magnitude decimal arithmetic).
* `String.prototype.split` with a one-character separator, `padStart`,
  `padEnd`, `parseFloat`, `parseInt(·, 10)`, `Math.round`, `||`-defaulting and
  template-string concatenation are modelled by the functions of the same
  intent below, following the ECMAScript semantics at the embedded call
  sites.
* Code that can throw a `TypeError` (indexing past the end of a `split`
  result and calling a method on `undefined`) is modelled in `Option`, with
  `none` for the thrown exception.
-/

namespace ScreenDoc

/-- JavaScript strings, as lists of characters. -/
abbrev Str := List Char

/-! ## String primitives -/

/-- `s.split(sep)` for a one-character separator: `""` splits to `[""]`,
separators at the ends produce empty fields. -/
def splitOnChar (sep : Char) : Str → List Str
  | [] => [[]]
  | c :: cs =>
    if c = sep then [] :: splitOnChar sep cs
    else
      match splitOnChar sep cs with
      | [] => [[c]]
      | g :: gs => (c :: g) :: gs

/-- `s.padStart(n, c)` (JS pads with a one-character filler here). -/
def padStartChar (c : Char) (n : Nat) (s : Str) : Str :=
  List.replicate (n - s.length) c ++ s

/-- `s.padEnd(n, c)`. -/
def padEndChar (c : Char) (n : Nat) (s : Str) : Str :=
  s ++ List.replicate (n - s.length) c

/-- ASCII decimal digit test (the only digits relevant to the embedded code). -/
def isDigitCh (c : Char) : Bool := '0' ≤ c && c ≤ '9'

/-- The whitespace skipped by `parseFloat` / `parseInt` (modelled as the ASCII
whitespace characters). -/
def isWsCh (c : Char) : Bool :=
  c = ' ' || c = '\t' || c = '\n' || c = '\r' || c = '\x0b' || c = '\x0c'

/-- Numeric value of a digit string (`0` for `[]`). -/
def digitsVal (ds : Str) : Nat :=
  ds.foldl (fun a c => a * 10 + (c.toNat - '0'.toNat)) 0

/-- The character of the last decimal digit of `n`. -/
def digitCh (n : Nat) : Char := Char.ofNat ('0'.toNat + n % 10)

/-- Decimal digits of `n`, most significant first, onto `acc` (structural on
a fuel bound so that the kernel can evaluate it; any `fuel > n` is enough). -/
def natDigitsOnto : Nat → Nat → Str → Str
  | 0, _, acc => acc
  | fuel + 1, n, acc =>
    if n < 10 then digitCh n :: acc
    else natDigitsOnto fuel (n / 10) (digitCh n :: acc)

/-- Decimal rendering of `n`, as produced by `Number.prototype.toString` on a
nonnegative integer. -/
def natDigits (n : Nat) : Str := natDigitsOnto (n + 1) n []

/-- Greedy digit prefix of a string, with the remainder. -/
def takeDigitsPre : Str → Str × Str
  | [] => ([], [])
  | c :: cs =>
    if isDigitCh c then (c :: (takeDigitsPre cs).1, (takeDigitsPre cs).2)
    else ([], c :: cs)

/-- Optional leading sign: the sign factor and the rest of the string. -/
def splitSign : Str → Int × Str
  | [] => (1, [])
  | c :: r =>
    if c = '-' then (-1, r) else if c = '+' then (1, r) else (1, c :: r)

/-- Does the string start with the literal `Infinity`? -/
def hasInfPrefix (s : Str) : Bool := "Infinity".toList.isPrefixOf s

/-- Fractional part after the integer digits: digits following a `.`. -/
def fracPart : Str → Str × Str
  | [] => ([], [])
  | c :: rr => if c = '.' then takeDigitsPre rr else ([], c :: rr)

/-- Powers of ten (structural, so the kernel can evaluate them). -/
def pow10 : Nat → Nat
  | 0 => 1
  | n + 1 => 10 * pow10 n

/-! ## JavaScript numbers -/

/-- A JavaScript number: NaN, an infinity, or an exact finite value. -/
inductive JSNum where
  | nan : JSNum
  | posInf : JSNum
  | negInf : JSNum
  | fin : ℚ → JSNum
deriving DecidableEq, Repr

/-- JS `+` on numbers. -/
def JSNum.add : JSNum → JSNum → JSNum
  | .fin a, .fin b => .fin (a + b)
  | .nan, _ => .nan
  | _, .nan => .nan
  | .posInf, .negInf => .nan
  | .negInf, .posInf => .nan
  | .posInf, _ => .posInf
  | _, .posInf => .posInf
  | .negInf, _ => .negInf
  | _, .negInf => .negInf

/-- JS `*` on numbers. -/
def JSNum.mul : JSNum → JSNum → JSNum
  | .fin a, .fin b => .fin (a * b)
  | .nan, _ => .nan
  | _, .nan => .nan
  | .posInf, .posInf => .posInf
  | .posInf, .negInf => .negInf
  | .negInf, .posInf => .negInf
  | .negInf, .negInf => .posInf
  | .posInf, .fin b => if 0 < b then .posInf else if b < 0 then .negInf else .nan
  | .fin a, .posInf => if 0 < a then .posInf else if a < 0 then .negInf else .nan
  | .negInf, .fin b => if 0 < b then .negInf else if b < 0 then .posInf else .nan
  | .fin a, .negInf => if 0 < a then .negInf else if a < 0 then .posInf else .nan

/-- JS `/` on numbers (the sign of zero is not modelled: division of a finite
value by zero takes the dividend's sign, division by an infinity gives `0`). -/
def JSNum.div : JSNum → JSNum → JSNum
  | .nan, _ => .nan
  | _, .nan => .nan
  | .posInf, .posInf => .nan
  | .posInf, .negInf => .nan
  | .negInf, .posInf => .nan
  | .negInf, .negInf => .nan
  | .posInf, .fin b => if 0 ≤ b then .posInf else .negInf
  | .negInf, .fin b => if 0 ≤ b then .negInf else .posInf
  | .fin _, .posInf => .fin 0
  | .fin _, .negInf => .fin 0
  | .fin a, .fin b =>
    if b = 0 then (if a = 0 then .nan else if 0 < a then .posInf else .negInf)
    else .fin (a / b)

/-- The JS idiom `x || 0` on a number: NaN (and 0 itself) fall back to `0`. -/
def JSNum.orZero : JSNum → JSNum
  | .nan => .fin 0
  | .fin q => .fin q
  | x => x

/-- `Math.round` (half toward `+∞`). -/
def JSNum.round : JSNum → JSNum
  | .fin q => .fin ((⌊q + 1 / 2⌋ : ℤ) : ℚ)
  | x => x

/-- `Number.isFinite`. -/
def JSNum.isFinite : JSNum → Bool
  | .fin _ => true
  | _ => false

/-- `Number.prototype.toString` for the values reachable at the embedded call
sites (NaN, infinities, and integers; other finite values do not occur there
and are rendered through their floor). -/
def JSNum.toStr : JSNum → Str
  | .nan => "NaN".toList
  | .posInf => "Infinity".toList
  | .negInf => "-Infinity".toList
  | .fin q =>
    if q.den = 1 then
      if q.num < 0 then '-' :: natDigits q.num.natAbs else natDigits q.num.natAbs
    else
      if q < 0 then '-' :: natDigits (⌊q⌋).natAbs else natDigits (⌊q⌋).natAbs

/-- Exponent suffix accepted by `parseFloat` after the mantissa: the value of
a valid `e`/`E` exponent part, `0` when none follows. -/
def parseExpSuffix : Str → Int
  | [] => 0
  | c :: r =>
    if c = 'e' ∨ c = 'E' then
      let sg := splitSign r
      let eds := (takeDigitsPre sg.2).1
      if eds = [] then 0 else sg.1 * (digitsVal eds : Int)
    else 0

/-- The smallest magnitude an IEEE-754 double rounds to `Infinity`:
`2^1024 - 2^970` (written out as a literal), the midpoint between the largest
finite double and `2^1024` (round-to-nearest-even sends the midpoint up).
`parseFloat` returns `±Infinity` from this magnitude on. -/
def dblOverflow : Nat := 179769313486231580793728971405303415079934132710037826936173778980444968292764750946649017977587207096330286416692887910946555547851940402630657488671505820681908902000708383676273854845817711531764475730270069855571366959622842914819860834936475292719074168444365510704342711559699508093042880177904174497792

/-- `parseFloat`: skip leading whitespace, optional sign, then either an
`Infinity` literal or the longest decimal-literal prefix; NaN when no numeric
prefix exists.  Finite values are exact rationals (double rounding within the
finite range is abstracted away), but a literal whose exact magnitude reaches
`dblOverflow` — where the double rounds to `±Infinity` — overflows to the
matching infinity, as `parseFloat` does. -/
def parseFloatM (s : Str) : JSNum :=
  let sg := splitSign (s.dropWhile isWsCh)
  if hasInfPrefix sg.2 then (if sg.1 = 1 then .posInf else .negInf)
  else
    let ip := (takeDigitsPre sg.2).1
    let r1 := (takeDigitsPre sg.2).2
    let fp := (fracPart r1).1
    let r2 := (fracPart r1).2
    if ip = [] ∧ fp = [] then .nan
    else
      let e := parseExpSuffix r2
      let mant : Int := sg.1 * ((digitsVal ip * pow10 fp.length + digitsVal fp : ℕ) : Int)
      let num : Int := if 0 ≤ e then mant * ((pow10 e.toNat : ℕ) : Int) else mant
      let den : Nat := if 0 ≤ e then pow10 fp.length else pow10 (fp.length + (-e).toNat)
      if dblOverflow * den ≤ num.natAbs then
        (if 0 ≤ num then .posInf else .negInf)
      else .fin (((num : ℤ) : ℚ) / ((den : ℕ) : ℚ))

/-- `parseInt(s, 10)`: skip leading whitespace, optional sign, longest digit
prefix; NaN when no digit follows. -/
def parseIntM (s : Str) : JSNum :=
  let sg := splitSign (s.dropWhile isWsCh)
  let ds := (takeDigitsPre sg.2).1
  if ds = [] then .nan
  else .fin ((sg.1 * (digitsVal ds : Int) : Int) : ℚ)

/-- `arr[i] || 0` over an array of numbers: an absent element (`undefined`) and
falsy elements fall back to `0`. -/
def jsIdxOrZero (l : List JSNum) (i : Nat) : JSNum :=
  match l.get? i with
  | some x => x.orZero
  | none => .fin 0

/-- `arr[i] || d` over an array of strings: absent and empty fall back to `d`. -/
def jsIdxOrStr (l : List Str) (i : Nat) (d : Str) : Str :=
  match l.get? i with
  | some s => if s = [] then d else s
  | none => d

/-! ## The Timecode Codec

`timeToSecs` below embeds `timeToSecs` of `src/utils/utils.ts` (branches for
2 and 3 colon groups only); `timeToSecsC` embeds the client variant
`client/src/utils/utils.ts` (branches for 3, 2 and 1 groups).  `toAssTimeC`
embeds the client `toAssTime` (splits on `.` first, total); `toAssTimeP0`
embeds the `exportUtils.ts` `toAssTime`, which reads `parts[2]` of the `:`
split unconditionally and therefore throws (`none`) on fewer than 3 colon
groups. -/

/-- `timeToSecs` of `src/utils/utils.ts`. -/
def timeToSecs (timecode : Str) : JSNum :=
  if timecode = [] then .fin 0
  else
    let parts := splitOnChar ':' timecode
    if parts.length = 2 then
      let ssms := (splitOnChar '.' (parts.getD 1 [])).map parseFloatM
      let seconds := jsIdxOrZero ssms 0
      let ms := jsIdxOrZero ssms 1
      (((parseFloatM (parts.getD 0 [])).mul (.fin 60)).add seconds).add
        (ms.div (.fin 1000))
    else if parts.length = 3 then
      let ssms := (splitOnChar '.' (parts.getD 2 [])).map parseFloatM
      let seconds := jsIdxOrZero ssms 0
      let ms := jsIdxOrZero ssms 1
      ((((parseFloatM (parts.getD 0 [])).mul (.fin 3600)).add
          ((parseFloatM (parts.getD 1 [])).mul (.fin 60))).add seconds).add
        (ms.div (.fin 1000))
    else .fin 0

/-- `timeToSecs` of `client/src/utils/utils.ts` (adds the 1-group branch). -/
def timeToSecsC (timecode : Str) : JSNum :=
  if timecode = [] then .fin 0
  else
    let parts := splitOnChar ':' timecode
    if parts.length = 3 then
      let ssms := (splitOnChar '.' (parts.getD 2 [])).map parseFloatM
      let seconds := jsIdxOrZero ssms 0
      let ms := jsIdxOrZero ssms 1
      ((((parseFloatM (parts.getD 0 [])).mul (.fin 3600)).add
          ((parseFloatM (parts.getD 1 [])).mul (.fin 60))).add seconds).add
        (ms.div (.fin 1000))
    else if parts.length = 2 then
      let ssms := (splitOnChar '.' (parts.getD 1 [])).map parseFloatM
      let seconds := jsIdxOrZero ssms 0
      let ms := jsIdxOrZero ssms 1
      (((parseFloatM (parts.getD 0 [])).mul (.fin 60)).add seconds).add
        (ms.div (.fin 1000))
    else if parts.length = 1 then
      let ssms := (splitOnChar '.' (parts.getD 0 [])).map parseFloatM
      let seconds := jsIdxOrZero ssms 0
      let ms := jsIdxOrZero ssms 1
      seconds.add (ms.div (.fin 1000))
    else .fin 0

/-- Centisecond field computed by both `toAssTime` variants:
`Math.round(parseInt(ms, 10) / 10).toString().padStart(2, '0')`. -/
def csField (ms : Str) : Str :=
  padStartChar '0' 2 (((parseIntM ms).div (.fin 10)).round.toStr)

/-- `toAssTime` of `client/src/utils/utils.ts`: split on `.` first, default
and pad the millisecond part, then promote 1- or 2-group `H:M:S` prefixes. -/
def toAssTimeC (time : Str) : Str :=
  if time = [] then "0:00:00.00".toList
  else
    let timeParts := splitOnChar '.' time
    let ms := padEndChar '0' 3 (jsIdxOrStr timeParts 1 "000".toList)
    let cs := csField ms
    let hmsParts := splitOnChar ':' (timeParts.getD 0 [])
    if hmsParts.length = 3 then
      (parseIntM (hmsParts.getD 0 [])).toStr ++
        ':' :: hmsParts.getD 1 [] ++ ':' :: hmsParts.getD 2 [] ++ '.' :: cs
    else if hmsParts.length = 2 then
      '0' :: ':' :: hmsParts.getD 0 [] ++ ':' :: hmsParts.getD 1 [] ++ '.' :: cs
    else if hmsParts.length = 1 then
      '0' :: ':' :: '0' :: '0' :: ':' :: hmsParts.getD 0 [] ++ '.' :: cs
    else "0:00:00.00".toList

/-- `toAssTime` of `exportUtils.ts`: reads `parts[2]` of the colon split
unconditionally, so a nonempty input with fewer than 3 colon groups throws a
`TypeError` (modelled as `none`). -/
def toAssTimeP0 (time : Str) : Option Str :=
  if time = [] then some "0:00:00.00".toList
  else
    match splitOnChar ':' time with
    | hh :: mm :: p2 :: _ =>
      let ssms := splitOnChar '.' p2
      let ss := jsIdxOrStr ssms 0 "00".toList
      let ms := jsIdxOrStr ssms 1 "000".toList
      some ((parseIntM hh).toStr ++
        ':' :: padStartChar '0' 2 mm ++ ':' :: padStartChar '0' 2 ss ++
        '.' :: csField ms)
    | _ => none

/-! ## Derived string forms used by the theorems -/

/-- A nonempty all-digit string. -/
def DigitStr (s : Str) : Prop := s ≠ [] ∧ ∀ c ∈ s, isDigitCh c = true

/-- `n` zero-padded to (at least) two digits. -/
def pad2 (n : Nat) : Str := padStartChar '0' 2 (natDigits n)

/-- `n` zero-padded to (at least) three digits. -/
def pad3 (n : Nat) : Str := padStartChar '0' 3 (natDigits n)

/-! ## The data model

Field names and order follow the `DiarizedSegment` and `Caption` interfaces
of the client `types` module. -/

/-- A diarized transcript segment. -/
structure DiarizedSegment where
  speaker : Str
  startTime : Str
  endTime : Str
  text : Str
deriving DecidableEq, Repr

/-- A timecoded caption. -/
structure Caption where
  startTime : Str
  endTime : Str
  text : Str
deriving DecidableEq, Repr

/-! ## The subtitle-track exporter (`exportToAss`)

`exportToAss` of `exportUtils.ts` and its client variant build one merged
event list: transcript events styled by their comma-stripped speaker, caption
events styled `Narrator`; events missing either timecode are dropped; the
remainder is sorted by `a.startTime.localeCompare(b.startTime)` with the
(stable) `Array.prototype.sort`.  `localeCompare` is modelled as
code-unit-lexicographic comparison (`lexLe`), which is its behaviour on the
digit/colon/dot timecode strings at hand; the stable sort is modelled by
`List.mergeSort`. -/

/-- Lexicographic (code-unit) `≤` on strings: the model of
`a.localeCompare(b) ≤ 0`. -/
def lexLe : Str → Str → Bool
  | [], _ => true
  | _ :: _, [] => false
  | a :: as, b :: bs => if a < b then true else if a = b then lexLe as bs else false

/-- `speaker.replace(/,/g, '')`. -/
def stripCommas (s : Str) : Str := s.filter (fun c => ¬c = ',')

/-- `[...new Set(xs)]`: dedup keeping first occurrences, in insertion order. -/
def jsSetDedup : List Str → List Str
  | [] => []
  | x :: xs => x :: jsSetDedup (xs.filter (fun y => ¬y = x))
termination_by l => l.length
decreasing_by
  simp only [List.length_cons]
  exact Nat.lt_succ_of_le (List.length_filter_le _ _)

/-- A merged subtitle event (the object spread `{...t, style}` /
`{...c, style: 'Narrator'}` of the client exporter; the inert `type` tag of
the `exportUtils.ts` variant is not carried). -/
structure AssEvent where
  startTime : Str
  endTime : Str
  text : Str
  style : Str
deriving DecidableEq, Repr

/-- Transcript events: the whole segment plus its comma-stripped speaker as
style. -/
def transcriptEvents (ts : List DiarizedSegment) : List AssEvent :=
  ts.map fun t => ⟨t.startTime, t.endTime, t.text, stripCommas t.speaker⟩

/-- Caption events, attributed to the fixed `Narrator` style. -/
def captionEvents (cs : List Caption) : List AssEvent :=
  cs.map fun c => ⟨c.startTime, c.endTime, c.text, "Narrator".toList⟩

/-- The merged-and-filtered event list, before sorting: entries missing either
timecode are dropped. -/
def keptEvents (ts : List DiarizedSegment) (cs : List Caption) : List AssEvent :=
  (transcriptEvents ts ++ captionEvents cs).filter
    (fun e => ¬e.startTime = [] ∧ ¬e.endTime = [])

/-- The sorted event list (`sort` by `startTime.localeCompare`, stable). -/
def allEvents (ts : List DiarizedSegment) (cs : List Caption) : List AssEvent :=
  (keptEvents ts cs).mergeSort (fun a b => lexLe a.startTime b.startTime)

/-- `text.replace(/\n/g, '\\N')`. -/
def assEscapeNl : Str → Str
  | [] => []
  | c :: cs => if c = '\n' then '\\' :: 'N' :: assEscapeNl cs else c :: assEscapeNl cs

/-- One `Dialogue:` line of the client exporter. -/
def dialogueLine (e : AssEvent) : Str :=
  "Dialogue: 0,".toList ++ toAssTimeC e.startTime ++ ',' :: toAssTimeC e.endTime ++
    ',' :: e.style ++ ",,0,0,0,,".toList ++ assEscapeNl e.text

/-- One `Dialogue:` line of the `exportUtils.ts` exporter (its `toAssTime`
can throw). -/
def dialogueLineP0 (e : AssEvent) : Option Str := do
  let st ← toAssTimeP0 e.startTime
  let en ← toAssTimeP0 e.endTime
  pure ("Dialogue: 0,".toList ++ st ++ ',' :: en ++
    ',' :: e.style ++ ",,0,0,0,,".toList ++ assEscapeNl e.text)

/-- `xs.join('\n')`. -/
def joinNl : List Str → Str
  | [] => []
  | [x] => x
  | x :: y :: r => x ++ '\n' :: joinNl (y :: r)

/-- The event lines of the client exporter, in output order. -/
def eventLines (ts : List DiarizedSegment) (cs : List Caption) : List Str :=
  (allEvents ts cs).map dialogueLine

/-- The event lines of the `exportUtils.ts` exporter (throws if any
`toAssTime` call throws). -/
def eventLinesP0 (ts : List DiarizedSegment) (cs : List Caption) :
    Option (List Str) :=
  (allEvents ts cs).mapM dialogueLineP0

/-- The speaker style block of the client exporter (colors cycle through its
5-entry palette, keyed by first-seen speaker order). -/
def speakerStylesC (ts : List DiarizedSegment) : List Str :=
  let colors : List Str :=
    ["&H00FFFF&", "&H00FF00&", "&HFFFF00&", "&H0000FF&", "&HFF00FF&"].map
      String.toList
  (jsSetDedup (ts.map (·.speaker))).enum.map fun si =>
    "Style: ".toList ++ stripCommas si.2 ++
      ",Arial,20,&H00FFFFFF,".toList ++ colors.getD (si.1 % colors.length) [] ++
      ",&H00000000,&H64000000,-1,0,0,0,100,100,0,0,1,2,2,2,10,10,10,1".toList

/-- Full client `exportToAss` output: header, styles, then one dialogue line
per sorted event. -/
def exportToAssC (ts : List DiarizedSegment) (cs : List Caption) : Str :=
  "[Script Info]\nTitle: ScreenGuide AI Export\nScriptType: v4.00+\n[V4+ Styles]\nFormat: Name, Fontname, Fontsize, PrimaryColour, SecondaryColour, OutlineColour, BackColour, Bold, Italic, Underline, StrikeOut, ScaleX, ScaleY, Spacing, Angle, BorderStyle, Outline, Shadow, Alignment, MarginL, MarginR, MarginV, Encoding\nStyle: Default,Arial,20,&H00FFFFFF,&H000000FF,&H00000000,&H64000000,-1,0,0,0,100,100,0,0,1,2,2,2,10,10,10,1\nStyle: Narrator,Arial,18,&H00B4B4B4,&H00FFFFFF,&H00000000,&H64000000,-1,0,0,0,100,100,0,0,1,2,0,2,10,10,10,1\n".toList ++
    joinNl (speakerStylesC ts) ++ '\n' :: "[Events]\nFormat: Layer, Start, End, Style, Name, MarginL, MarginR, MarginV, Effect, Text\n".toList ++
    joinNl (eventLines ts cs)

/-- The `exportUtils.ts` `exportToAss`, up to its event lines: `none` models
the `TypeError` its `toAssTime` throws on a kept event whose timecode has
fewer than three colon groups. -/
def exportToAssP0Events (ts : List DiarizedSegment) (cs : List Caption) :
    Option Str :=
  (eventLinesP0 ts cs).map joinNl

/-! ## The progress estimator (`simulateProgress`)

`simulateProgress` of `src/utils/fileUtils.ts` reports `0`, then on each
200 ms tick adds `Math.random() * 5` to an accumulator: a tick reports the
accumulator while it stays below 95, and reports exactly `95` (and stops the
interval) the first time it reaches 95; when the awaited task settles the
interval is cleared and `100` (on success) or `0` (on failure, with the error
re-thrown) is reported.  The interleaving is modelled by the list of random
step values drawn before the task settles. -/

/-- Reports produced by the interval ticks, starting from accumulator `p`:
one entry per tick, stopping early when the accumulator reaches 95. -/
def tickReports (p : ℚ) : List ℚ → List ℚ
  | [] => []
  | r :: rs =>
    let q := p + r
    if 95 ≤ q then [95] else q :: tickReports q rs

/-- The full report trace of `simulateProgress`: the initial `0`, the tick
reports, then the settle report (`100` on success, `0` on failure). -/
def simulateProgressTrace (steps : List ℚ) (ok : Bool) : List ℚ :=
  0 :: tickReports 0 steps ++ [if ok then 100 else 0]

/-- The value `simulateProgress` settles with: the task's own outcome,
returned on success and re-thrown on failure. -/
def simulateProgressResult {E A : Type} (task : Except E A) : Except E A :=
  task

/-! ## The JSON snapshot codec (`exportToJson` / `JSON.parse`)

`exportToJson` is `JSON.stringify({diarizedTranscript, avCaptions}, null, 2)`.
The encoder below renders a `Json` value exactly as `JSON.stringify` with a
2-space indent does; `exportToJson` applies it to the snapshot value, whose
objects carry their fields in interface order.  The decoder models
`JSON.parse` restricted to the grammar fragment a snapshot document can
contain — strings (with escapes), arrays, objects, and the `null` / `true` /
`false` literals; numeric literals, which no snapshot contains, are rejected
with `none` (as are the malformed inputs `JSON.parse` throws on). -/

/-- A JSON value (numbers excluded; see the section comment). -/
inductive Json where
  | null : Json
  | bool (b : Bool) : Json
  | str (s : Str) : Json
  | arr (es : List Json) : Json
  | obj (ms : List (Str × Json)) : Json

/-- Lowercase hex digit for `n < 16`. -/
def hexCh (n : Nat) : Char :=
  if n < 10 then Char.ofNat ('0'.toNat + n) else Char.ofNat ('a'.toNat + (n - 10))

/-- One string character as `JSON.stringify` emits it. -/
def escJsonCh (c : Char) : Str :=
  if c = '"' then ['\\', '"']
  else if c = '\\' then ['\\', '\\']
  else if c = '\n' then ['\\', 'n']
  else if c = '\r' then ['\\', 'r']
  else if c = '\t' then ['\\', 't']
  else if c = '\x08' then ['\\', 'b']
  else if c = '\x0c' then ['\\', 'f']
  else if c.toNat < 32 then
    ['\\', 'u', '0', '0', hexCh (c.toNat / 16), hexCh (c.toNat % 16)]
  else [c]

/-- A JSON string literal: quoted and escaped. -/
def jstr (s : Str) : Str := '"' :: ((s.map escJsonCh).flatten ++ ['"'])

/-- `k` spaces of indentation. -/
def ind (k : Nat) : Str := List.replicate k ' '

mutual

/-- `JSON.stringify(v, null, 2)`, at the indentation level of the value's
container line.  Empty arrays and objects print as `[]` / `{}`; nonempty ones
put every item on its own line, two spaces deeper. -/
def renderJ : Json → Nat → Str
  | .null, _ => "null".toList
  | .bool true, _ => "true".toList
  | .bool false, _ => "false".toList
  | .str s, _ => jstr s
  | .arr [], _ => "[]".toList
  | .arr (e :: es), i =>
    '[' :: '\n' :: (renderItems (e :: es) (i + 2) ++ '\n' :: (ind i ++ [']']))
  | .obj [], _ => "{}".toList
  | .obj (m :: ms), i =>
    '{' :: '\n' :: (renderFields (m :: ms) (i + 2) ++ '\n' :: (ind i ++ ['}']))

/-- Array items, one per line at indent `i`, separated by `,\n`. -/
def renderItems : List Json → Nat → Str
  | [], _ => []
  | [e], i => ind i ++ renderJ e i
  | e :: e2 :: es, i =>
    ind i ++ renderJ e i ++ ',' :: '\n' :: renderItems (e2 :: es) i

/-- Object members, one per line at indent `i`, `"key": value`, separated by
`,\n`. -/
def renderFields : List (Str × Json) → Nat → Str
  | [], _ => []
  | [(k, v)], i => ind i ++ jstr k ++ ':' :: ' ' :: renderJ v i
  | (k, v) :: m2 :: ms, i =>
    ind i ++ jstr k ++ ':' :: ' ' :: renderJ v i ++ ',' :: '\n' ::
      renderFields (m2 :: ms) i

end

/-- The JSON value of one segment (fields in interface order). -/
def segJson (t : DiarizedSegment) : Json :=
  .obj [("speaker".toList, .str t.speaker), ("startTime".toList, .str t.startTime),
    ("endTime".toList, .str t.endTime), ("text".toList, .str t.text)]

/-- The JSON value of one caption (fields in interface order). -/
def capJson (c : Caption) : Json :=
  .obj [("startTime".toList, .str c.startTime), ("endTime".toList, .str c.endTime),
    ("text".toList, .str c.text)]

/-- The snapshot value `{ diarizedTranscript: ts, avCaptions: cs }`. -/
def snapshotJson (ts : List DiarizedSegment) (cs : List Caption) : Json :=
  .obj [("diarizedTranscript".toList, .arr (ts.map segJson)),
    ("avCaptions".toList, .arr (cs.map capJson))]

/-- `exportToJson`: `JSON.stringify({diarizedTranscript, avCaptions}, null, 2)`. -/
def exportToJson (ts : List DiarizedSegment) (cs : List Caption) : Str :=
  renderJ (snapshotJson ts cs) 0

/-- The whitespace `JSON.parse` skips between tokens. -/
def isJsonWs (c : Char) : Bool := c = ' ' || c = '\n' || c = '\t' || c = '\r'

/-- Skip inter-token whitespace. -/
def skipJsWs (s : Str) : Str := s.dropWhile isJsonWs

/-- Value of a hex digit character. -/
def hexVal (c : Char) : Option Nat :=
  if '0' ≤ c ∧ c ≤ '9' then some (c.toNat - '0'.toNat)
  else if 'a' ≤ c ∧ c ≤ 'f' then some (c.toNat - 'a'.toNat + 10)
  else if 'A' ≤ c ∧ c ≤ 'F' then some (c.toNat - 'A'.toNat + 10)
  else none

/-- The one-character JSON escapes. -/
def unescJsonCh (c : Char) : Option Char :=
  if c = '"' then some '"'
  else if c = '\\' then some '\\'
  else if c = '/' then some '/'
  else if c = 'n' then some '\n'
  else if c = 'r' then some '\r'
  else if c = 't' then some '\t'
  else if c = 'b' then some '\x08'
  else if c = 'f' then some '\x0c'
  else none

/-- String body after the opening quote: collects characters until the closing
quote, decoding escapes (including `\uXXXX`). -/
def parseJStrAux : Str → Str → Option (Str × Str)
  | acc, '"' :: rest => some (acc.reverse, rest)
  | acc, '\\' :: 'u' :: a :: b :: c :: d :: rest =>
    match hexVal a, hexVal b, hexVal c, hexVal d with
    | some va, some vb, some vc, some vd =>
      parseJStrAux (Char.ofNat (((va * 16 + vb) * 16 + vc) * 16 + vd) :: acc) rest
    | _, _, _, _ => none
  | acc, '\\' :: e :: rest =>
    match unescJsonCh e with
    | some ch => parseJStrAux (ch :: acc) rest
    | none => none
  | acc, c :: rest => parseJStrAux (c :: acc) rest
  | _, [] => none

mutual

/-- One JSON value (fuel-indexed recursive descent). -/
def parseJVal : Nat → Str → Option (Json × Str)
  | 0, _ => none
  | fuel + 1, s =>
    match skipJsWs s with
    | 'n' :: 'u' :: 'l' :: 'l' :: r => some (.null, r)
    | 't' :: 'r' :: 'u' :: 'e' :: r => some (.bool true, r)
    | 'f' :: 'a' :: 'l' :: 's' :: 'e' :: r => some (.bool false, r)
    | '"' :: r => (parseJStrAux [] r).map (fun p => (.str p.1, p.2))
    | '[' :: r =>
      match skipJsWs r with
      | ']' :: r2 => some (.arr [], r2)
      | r2 => (parseJElems fuel r2).map (fun p => (.arr p.1, p.2))
    | '{' :: r =>
      match skipJsWs r with
      | '}' :: r2 => some (.obj [], r2)
      | r2 => (parseJMembers fuel r2).map (fun p => (.obj p.1, p.2))
    | _ => none

/-- One-or-more comma-separated array items, through the closing `]`. -/
def parseJElems : Nat → Str → Option (List Json × Str)
  | 0, _ => none
  | fuel + 1, s =>
    match parseJVal fuel s with
    | none => none
    | some (v, r) =>
      match skipJsWs r with
      | ',' :: r2 => (parseJElems fuel r2).map (fun p => (v :: p.1, p.2))
      | ']' :: r2 => some ([v], r2)
      | _ => none

/-- One-or-more comma-separated object members, through the closing `}`. -/
def parseJMembers : Nat → Str → Option (List (Str × Json) × Str)
  | 0, _ => none
  | fuel + 1, s =>
    match skipJsWs s with
    | '"' :: r =>
      match parseJStrAux [] r with
      | none => none
      | some (k, r1) =>
        match skipJsWs r1 with
        | ':' :: r2 =>
          match parseJVal fuel r2 with
          | none => none
          | some (v, r3) =>
            match skipJsWs r3 with
            | ',' :: r4 => (parseJMembers fuel r4).map (fun p => ((k, v) :: p.1, p.2))
            | '}' :: r4 => some ([(k, v)], r4)
            | _ => none
        | _ => none
    | _ => none

end

/-- `JSON.parse` of a whole document. -/
def parseJson (s : Str) : Option Json :=
  match parseJVal (s.length + 1) s with
  | some (j, r) => if skipJsWs r = [] then some j else none
  | none => none

/-- Reads a segment back from its JSON object form. -/
def segFromJson : Json → Option DiarizedSegment
  | .obj [(k1, .str a), (k2, .str b), (k3, .str c), (k4, .str d)] =>
    if k1 = "speaker".toList ∧ k2 = "startTime".toList ∧ k3 = "endTime".toList ∧
        k4 = "text".toList then
      some ⟨a, b, c, d⟩
    else none
  | _ => none

/-- Reads a caption back from its JSON object form. -/
def capFromJson : Json → Option Caption
  | .obj [(k1, .str a), (k2, .str b), (k3, .str c)] =>
    if k1 = "startTime".toList ∧ k2 = "endTime".toList ∧ k3 = "text".toList then
      some ⟨a, b, c⟩
    else none
  | _ => none

/-- Reads the snapshot pair back from the parsed JSON value. -/
def snapshotFromJson : Json → Option (List DiarizedSegment × List Caption)
  | .obj [(k1, .arr segs), (k2, .arr caps)] =>
    if k1 = "diarizedTranscript".toList ∧ k2 = "avCaptions".toList then do
      let ts ← segs.mapM segFromJson
      let cs ← caps.mapM capFromJson
      pure (ts, cs)
    else none
  | _ => none

/-- Decoding a snapshot document: `JSON.parse` plus field extraction. -/
def decodeSnapshot (s : Str) : Option (List DiarizedSegment × List Caption) :=
  (parseJson s).bind snapshotFromJson

/-- Tail that follows a rendered array item: either the closing line or the
separator plus the remaining items. -/
def itemsTail : List Json → Nat → Nat → Str → Str
  | [], _, i0, rest => '\n' :: (ind i0 ++ ']' :: rest)
  | e2 :: es, j, i0, rest =>
    ',' :: '\n' :: (renderItems (e2 :: es) j ++ '\n' :: (ind i0 ++ ']' :: rest))

/-- Tail that follows a rendered object member. -/
def membersTail : List (Str × Json) → Nat → Nat → Str → Str
  | [], _, i0, rest => '\n' :: (ind i0 ++ '}' :: rest)
  | m2 :: ms, j, i0, rest =>
    ',' :: '\n' :: (renderFields (m2 :: ms) j ++ '\n' :: (ind i0 ++ '}' :: rest))

mutual

/-- Parser fuel sufficient for a value (one unit per recursive-descent step). -/
def fuelJ : Json → Nat
  | .null => 1
  | .bool _ => 1
  | .str _ => 1
  | .arr es => fuelArr es + 1
  | .obj ms => fuelObj ms + 1

/-- Parser fuel sufficient for an array-item list. -/
def fuelArr : List Json → Nat
  | [] => 0
  | e :: es => 1 + max (fuelJ e) (fuelArr es)

/-- Parser fuel sufficient for an object-member list. -/
def fuelObj : List (Str × Json) → Nat
  | [] => 0
  | (_, v) :: ms => 1 + max (fuelJ v) (fuelObj ms)

end

/-! ## Placeholder regular expressions

Three placeholder patterns occur in the sources:

* `contentUtils.ts` (`processContentForPreview`):
  `/\[Image:\s*(.+?)\s+at\s+(\d{1,2}:\d{2}:\d{2}(?:\.\d{3})?)\]/gi`;
* `App.tsx` (both zip exporters): `/\[Image: (.*?)\s+at\s+([0-9:.]+)]/g`
  (case-sensitive);
* the client `App.tsx` zip exporter:
  `/\[Image: (.*?)(?:\s+at\s+([0-9:.]+))?\]/gi` (optional timecode).

Each is embedded as a backtracking matcher following the JS engine's
priorities (lazy groups shortest-first, greedy pieces longest-first,
left-to-right scan, non-overlapping global matches).  `\s` is modelled by the
ASCII whitespace class and `.` excludes the line terminators. -/

/-- Case-insensitive character comparison (`i` flag). -/
def ciEq (a b : Char) : Bool := a.toLower = b.toLower

/-- Strip a pattern prefix case-insensitively, returning the remainder. -/
def ciPrefix : Str → Str → Option Str
  | [], s => some s
  | _ :: _, [] => none
  | p :: ps, c :: cs => if ciEq p c then ciPrefix ps cs else none

/-- Strip a literal pattern prefix (case-sensitive), returning the remainder. -/
def litPrefix : Str → Str → Option Str
  | [], s => some s
  | _ :: _, [] => none
  | p :: ps, c :: cs => if p = c then litPrefix ps cs else none

/-- The `.` class without the `s` flag: anything but a line terminator. -/
def isDotCh (c : Char) : Bool :=
  ¬(c = '\n' ∨ c = '\r' ∨ c = '\u2028' ∨ c = '\u2029')

/-- The `[0-9:.]` class of the exporter patterns. -/
def isTcCh (c : Char) : Bool := isDigitCh c || c = ':' || c = '.'

/-- `:\d{2}:\d{2}`: consumed length 6 and the remainder. -/
def matchMMSS : Str → Option Str
  | ':' :: a :: b :: ':' :: c :: d :: rest =>
    if isDigitCh a && isDigitCh b && isDigitCh c && isDigitCh d then some rest
    else none
  | _ => none

/-- `]` alone. -/
def matchCloseBracket : Str → Option Str
  | ']' :: rest => some rest
  | _ => none

/-- `(?:\.\d{3})?\]`, fraction preferred (greedy option), with the consumed
length. -/
def matchFracBracket (s : Str) : Option (Nat × Str) :=
  match s with
  | '.' :: a :: b :: c :: ']' :: rest =>
    if isDigitCh a && isDigitCh b && isDigitCh c then some (5, rest)
    else (matchCloseBracket s).map (fun r => (1, r))
  | _ => (matchCloseBracket s).map (fun r => (1, r))

/-- `(\d{1,2}:\d{2}:\d{2}(?:\.\d{3})?)\]`: two-digit hours preferred; returns
the total consumed length (closing bracket included) and the remainder. -/
def matchTimecode : Str → Option (Nat × Str)
  | a :: b :: rest =>
    (if isDigitCh a && isDigitCh b then
      match matchMMSS rest with
      | some r2 => (matchFracBracket r2).map (fun p => (2 + 6 + p.1, p.2))
      | none => none
    else none) <|>
    (if isDigitCh a then
      match matchMMSS (b :: rest) with
      | some r2 => (matchFracBracket r2).map (fun p => (1 + 6 + p.1, p.2))
      | none => none
    else none)
  | _ => none

/-- `\s+at\s+` (case-insensitive `at`) followed by the strict timecode and the
closing bracket: the consumed length and the captured timecode.  Both `\s+`
runs are deterministic (the following token is never whitespace). -/
def matchAfterDescPrev (s : Str) : Option (Nat × Str) :=
  let w1 := (s.takeWhile isWsCh).length
  if w1 = 0 then none
  else
    match ciPrefix "at".toList (s.drop w1) with
    | none => none
    | some r1 =>
      let w2 := (r1.takeWhile isWsCh).length
      if w2 = 0 then none
      else
        match matchTimecode (r1.drop w2) with
        | none => none
        | some (tlen, _) => some (w1 + 2 + w2 + tlen, (r1.drop w2).take (tlen - 1))

/-- The lazy `(.+?)` of the preview pattern: the shortest nonempty description
whose continuation matches; returns the description length, the continuation's
consumed length and the captured timecode. -/
def lazyDescPrev : Nat → Str → Option (Nat × Nat × Str)
  | 0, _ => none
  | fuel + 1, s =>
    match s with
    | [] => none
    | c :: rest =>
      if isDotCh c then
        match matchAfterDescPrev rest with
        | some (alen, tc) => some (1, alen, tc)
        | none => (lazyDescPrev fuel rest).map (fun p => (p.1 + 1, p.2.1, p.2.2))
      else none

/-- The `\s*` of the preview pattern, greedy with backtracking: `k` whitespace
characters first, then fewer. -/
def wsStarLoop : Nat → Str → Option (Nat × Nat × Nat × Str)
  | 0, r0 =>
    (lazyDescPrev r0.length r0).map (fun p => (0, p.1, p.2.1, p.2.2))
  | k + 1, r0 =>
    match lazyDescPrev (r0.drop (k + 1)).length (r0.drop (k + 1)) with
    | some (dlen, alen, tc) => some (k + 1, dlen, alen, tc)
    | none => wsStarLoop k r0

/-- A preview-pattern match anchored at the start of `s`: total length,
description capture and timecode capture. -/
def matchPreviewAt (s : Str) : Option (Nat × Str × Str) :=
  match ciPrefix "[image:".toList s with
  | none => none
  | some r0 =>
    match wsStarLoop (r0.takeWhile isWsCh).length r0 with
    | none => none
    | some (k, dlen, alen, tc) =>
      some (7 + k + dlen + alen, (r0.drop k).take dlen, tc)

/-- Leftmost match of an anchored matcher: the text before the match, the
matched text, the matcher's captures, and the text after the match. -/
def scanWith {α : Type} (matchAt : Str → Option (Nat × α)) :
    Str → Option (Str × Str × α × Str)
  | [] => none
  | c :: cs =>
    match matchAt (c :: cs) with
    | some (len, x) => some ([], (c :: cs).take len, x, (c :: cs).drop len)
    | none =>
      match scanWith matchAt cs with
      | some (pre, m, x, after) => some (c :: pre, m, x, after)
      | none => none

/-- Leftmost preview-pattern match: the text before it, the matched text, the
two captures, and the text after it. -/
def scanPreview (s : Str) : Option (Str × Str × (Str × Str) × Str) :=
  scanWith matchPreviewAt s

/-- `processContentForPreview` of `contentUtils.ts`: global replace, turning
each placeholder whose timecode is a key of `screenshots` into a markdown
image with the inline screenshot, and leaving every other placeholder (the
callback returns the match itself) and all other text unchanged. -/
def previewReplaceLoop : Nat → Str → (Str → Option Str) → Str
  | 0, s, _ => s
  | fuel + 1, s, shots =>
    match scanPreview s with
    | none => s
    | some (pre, m, (d, t), after) =>
      let rep :=
        match shots t with
        | some shot =>
          '!' :: '[' :: (d ++ ']' :: '(' :: ("data:image/png;base64,".toList ++
            shot ++ [')']))
        | none => m
      pre ++ rep ++ previewReplaceLoop fuel after shots

/-- `processContentForPreview(content, screenshots)`. -/
def processContentForPreview (content : Str) (screenshots : Str → Option Str) :
    Str :=
  previewReplaceLoop content.length content screenshots

/-- The timecode captures of all preview-pattern matches, in match order. -/
def previewTimecodesLoop : Nat → Str → List Str
  | 0, _ => []
  | fuel + 1, s =>
    match scanPreview s with
    | none => []
    | some (_, _, (_, t), after) => t :: previewTimecodesLoop fuel after

/-- All matched timecodes of a document, in order. -/
def previewTimecodes (content : Str) : List Str :=
  previewTimecodesLoop content.length content

/-! ## The exporter placeholder patterns and the zip exporters -/

/-- `\s+at\s+([0-9:.]+)]` of the `App.tsx` pattern (case-sensitive `at`; the
greedy class run must be followed by the closing bracket): consumed length and
timecode capture. -/
def matchAfterDescZip (s : Str) : Option (Nat × Str) :=
  let w1 := (s.takeWhile isWsCh).length
  if w1 = 0 then none
  else
    match litPrefix "at".toList (s.drop w1) with
    | none => none
    | some r1 =>
      let w2 := (r1.takeWhile isWsCh).length
      if w2 = 0 then none
      else
        let run := ((r1.drop w2).takeWhile isTcCh).length
        if run = 0 then none
        else
          match (r1.drop w2).drop run with
          | ']' :: _ => some (w1 + 2 + w2 + run + 1, (r1.drop w2).take run)
          | _ => none

/-- The lazy `(.*?)` of the `App.tsx` pattern: shortest (possibly empty)
description whose continuation matches. -/
def lazyDescZip : Nat → Str → Option (Nat × Nat × Str)
  | fuel, s =>
    match matchAfterDescZip s with
    | some (alen, tc) => some (0, alen, tc)
    | none =>
      match fuel, s with
      | fuel + 1, c :: rest =>
        if isDotCh c then
          (lazyDescZip fuel rest).map (fun p => (p.1 + 1, p.2.1, p.2.2))
        else none
      | _, _ => none

/-- An `App.tsx`-pattern match anchored at the start of `s`: total length,
then description and timecode captures. -/
def matchZipAt (s : Str) : Option (Nat × Str × Str) :=
  match litPrefix "[Image: ".toList s with
  | none => none
  | some r0 =>
    (lazyDescZip r0.length r0).map fun p =>
      (8 + p.1 + p.2.1, r0.take p.1, p.2.2)

/-- One exporter placeholder match: full text, description, timecode. -/
structure PlaceholderMatch where
  full : Str
  desc : Str
  tc : Str
deriving DecidableEq, Repr

/-- `matchAll` for the `App.tsx` pattern: all non-overlapping matches, left to
right. -/
def zipMatchesLoop : Nat → Str → List PlaceholderMatch
  | 0, _ => []
  | fuel + 1, s =>
    match scanWith matchZipAt s with
    | none => []
    | some (_, m, (d, t), after) => ⟨m, d, t⟩ :: zipMatchesLoop fuel after

/-- `[...content.matchAll(/\[Image: (.*?)\s+at\s+([0-9:.]+)]/g)]`. -/
def matchAllZip (content : Str) : List PlaceholderMatch :=
  zipMatchesLoop content.length content

/-- `\s+at\s+([0-9:.]+)` with case-insensitive `at`, for the client pattern. -/
def matchAfterDescCi (s : Str) : Option (Nat × Str) :=
  let w1 := (s.takeWhile isWsCh).length
  if w1 = 0 then none
  else
    match ciPrefix "at".toList (s.drop w1) with
    | none => none
    | some r1 =>
      let w2 := (r1.takeWhile isWsCh).length
      if w2 = 0 then none
      else
        let run := ((r1.drop w2).takeWhile isTcCh).length
        if run = 0 then none
        else
          match (r1.drop w2).drop run with
          | ']' :: _ => some (w1 + 2 + w2 + run + 1, (r1.drop w2).take run)
          | _ => none

/-- The lazy `(.*?)` of the client pattern, with the optional
`(?:\s+at\s+([0-9:.]+))?` group (present preferred) and the closing bracket. -/
def lazyDescClient : Nat → Str → Option (Nat × Nat × Option Str)
  | fuel, s =>
    match matchAfterDescCi s with
    | some (alen, tc) => some (0, alen, some tc)
    | none =>
      match s with
      | ']' :: _ => some (0, 1, none)
      | _ =>
        match fuel, s with
        | fuel + 1, c :: rest =>
          if isDotCh c then
            (lazyDescClient fuel rest).map (fun p => (p.1 + 1, p.2.1, p.2.2))
          else none
        | _, _ => none

/-- A client-pattern match anchored at the start of `s` (timecode optional). -/
def matchClientAt (s : Str) : Option (Nat × Str × Option Str) :=
  match ciPrefix "[image: ".toList s with
  | none => none
  | some r0 =>
    (lazyDescClient r0.length r0).map fun p =>
      (8 + p.1 + p.2.1, r0.take p.1, p.2.2)

/-- One client placeholder match: full text, description, optional timecode. -/
structure PlaceholderMatchC where
  full : Str
  desc : Str
  tc : Option Str
deriving DecidableEq, Repr

/-- `matchAll` for the client pattern. -/
def clientMatchesLoop : Nat → Str → List PlaceholderMatchC
  | 0, _ => []
  | fuel + 1, s =>
    match scanWith matchClientAt s with
    | none => []
    | some (_, m, (d, t), after) => ⟨m, d, t⟩ :: clientMatchesLoop fuel after

/-- `[...content.matchAll(/\[Image: (.*?)(?:\s+at\s+([0-9:.]+))?\]/gi)]`. -/
def matchAllClient (content : Str) : List PlaceholderMatchC :=
  clientMatchesLoop content.length content

/-- `content.replace(needle, repl)` with a *string* pattern: replaces the
first literal occurrence only (`$`-expansion in the replacement, which no
embedded call produces, is not modelled). -/
def replaceFirstLoop : Nat → Str → Str → Str → Str
  | 0, s, _, _ => s
  | fuel + 1, s, needle, repl =>
    if needle.isPrefixOf s then repl ++ s.drop needle.length
    else
      match s with
      | [] => []
      | c :: cs => c :: replaceFirstLoop fuel cs needle repl

/-- First-occurrence literal string replacement. -/
def replaceFirst (s needle repl : Str) : Str :=
  replaceFirstLoop s.length s needle repl

/-- The contents of one archive entry (binary payloads and the session
manifest are represented structurally; only entry names matter to the claims
about archive shape). -/
inductive ZipData where
  | text (s : Str) : ZipData
  | image (b : Nat) : ZipData
  | video : ZipData
  | folder : ZipData
  | session (videoDescription userPrompt : Str) (ts : List DiarizedSegment)
      (cs : List Caption) (format content : Str) : ZipData
deriving Repr, DecidableEq

/-- Outcome of an export handler: not run (guard failed), aborted with an
error message, or a finished archive. -/
inductive ExportOutcome where
  | notRun : ExportOutcome
  | failed : ExportOutcome
  | ok (entries : List (Str × ZipData)) : ExportOutcome
deriving Repr, DecidableEq

/-- The markdown image reference the zip exporters substitute for a resolved
placeholder, with the given path prefix. -/
def imageRef (desc pathPre : Str) (idx : Nat) : Str :=
  '!' :: '[' :: (desc ++ ']' :: '(' :: (pathPre ++ "image-".toList ++
    natDigits (idx + 1) ++ ".png)".toList))

/-- `handleExportZip` of `App.tsx`: guard, then all placeholder frames are
extracted under one `Promise.all` — a single rejection rejects the batch and
the surrounding `catch` aborts the whole export.  `extract` models
`extractFrame(videoUrl, ·)` (`none` = rejected promise); `compressOk` models
`zip.generateAsync` succeeding. -/
def handleExportZipA (content : Str) (videoUrl : Bool) (outputFormat : Str)
    (extract : JSNum → Option Nat) (compressOk : Bool) : ExportOutcome :=
  if content = [] ∨ videoUrl = false ∨ outputFormat = "diagram".toList then
    .notRun
  else
    let phs := matchAllZip content
    match phs.mapM (fun m => (extract (timeToSecs m.tc)).map (fun b => (m, b))) with
    | none => .failed
    | some results =>
      let imgFolder : List (Str × ZipData) :=
        if phs = [] then [] else [("images/".toList, .folder)]
      let imgEntries := results.enum.map fun r =>
        (("images/image-".toList ++ natDigits (r.1 + 1) ++ ".png".toList),
          ZipData.image r.2.2)
      let content2 := results.enum.foldl
        (fun acc r => replaceFirst acc r.2.1.full
          (imageRef r.2.1.desc "./images/".toList r.1)) content
      if compressOk then
        .ok (imgFolder ++ imgEntries ++ [("guide.md".toList, .text content2)])
      else .failed

/-- `handleExportZip` of the client `App.tsx`: same guard, but each frame
extraction is awaited inside its own `try`/`catch`, so a failed (or
timecode-less) placeholder yields `null` and is skipped; only compression
failure aborts.  Matches without a timecode extract nothing. -/
def handleExportZipB (content : Str) (videoUrl : Bool) (outputFormat : Str)
    (extract : JSNum → Option Nat) (compressOk : Bool) : ExportOutcome :=
  if content = [] ∨ videoUrl = false ∨ outputFormat = "diagram".toList then
    .notRun
  else
    let phs := matchAllClient content
    let results := phs.enum.map fun m =>
      match m.2.tc with
      | some tc => (extract (timeToSecsC tc)).map (fun b => (m.1, m.2, b))
      | none => none
    let imgFolder : List (Str × ZipData) :=
      if phs = [] then [] else [("images/".toList, .folder)]
    let imgEntries := results.filterMap (fun r => r.map fun x =>
      (("images/image-".toList ++ natDigits (x.1 + 1) ++ ".png".toList),
        ZipData.image x.2.2))
    let content2 := results.foldl
      (fun acc r =>
        match r with
        | some x => replaceFirst acc x.2.1.full
            (imageRef x.2.1.desc "./images/".toList x.1)
        | none => acc) content
    if compressOk then
      .ok (imgFolder ++ imgEntries ++ [("guide.md".toList, .text content2)])
    else .failed

/-- `handleExportSessionData` of `App.tsx`: session manifest, optional video,
generated output with `Promise.all`-extracted images (skipped entirely for the
`diagram` format or without a video URL), and subtitle entries built with the
`exportUtils.ts` exporters (whose `toAssTime` can throw, aborting the export). -/
def handleExportSessionData (videoDescription userPrompt : Str)
    (ts : List DiarizedSegment) (caps : List Caption)
    (outputFormat content : Str) (videoFileName : Option Str) (videoUrl : Bool)
    (extract : JSNum → Option Nat) (compressOk : Bool) : ExportOutcome :=
  let sessionEntries : List (Str × ZipData) :=
    [("session.json".toList,
      .session videoDescription userPrompt ts caps outputFormat content)]
  let videoEntries : List (Str × ZipData) :=
    match videoFileName with
    | some n => [("video/".toList, .folder), ("video/".toList ++ n, .video)]
    | none => []
  let ext := if outputFormat = "diagram".toList then "mmd".toList else "md".toList
  let outputStep : Option (List (Str × ZipData)) :=
    if content = [] then some []
    else if videoUrl = true ∧ ¬outputFormat = "diagram".toList then
      let phs := matchAllZip content
      if phs = [] then
        some [("output/".toList, .folder),
          ("output/output.".toList ++ ext, .text content)]
      else
        match phs.mapM (fun m =>
            (extract (timeToSecs m.tc)).map (fun b => (m, b))) with
        | none => none
        | some results =>
          let imgEntries := ("images/".toList, ZipData.folder) ::
            results.enum.map fun r =>
              (("images/image-".toList ++ natDigits (r.1 + 1) ++ ".png".toList),
                ZipData.image r.2.2)
          let content2 := results.enum.foldl
            (fun acc r => replaceFirst acc r.2.1.full
              (imageRef r.2.1.desc "../images/".toList r.1)) content
          some (("output/".toList, .folder) :: imgEntries ++
            [("output/output.".toList ++ ext, .text content2)])
    else
      some [("output/".toList, .folder),
        ("output/output.".toList ++ ext, .text content)]
  match outputStep with
  | none => .failed
  | some outputEntries =>
    let subtitleStep : Option (List (Str × ZipData)) :=
      if ¬ts = [] ∨ ¬caps = [] then
        match exportToAssP0Events ts caps with
        | none => none
        | some assEvents =>
          some [("subtitles/".toList, .folder),
            ("subtitles/transcript.ass".toList, .text assEvents),
            ("subtitles/transcript.json".toList, .text (exportToJson ts caps))]
      else some []
    match subtitleStep with
    | none => .failed
    | some subtitleEntries =>
      if compressOk then
        .ok (sessionEntries ++ videoEntries ++ outputEntries ++ subtitleEntries)
      else .failed

/-- Does `pre` start the string `s`? -/
def strStartsWith : Str → Str → Bool
  | [], _ => true
  | _ :: _, [] => false
  | p :: ps, c :: cs => p = c && strStartsWith ps cs

end ScreenDoc

namespace ScreenDoc

/-! ## Lemmas about the string primitives -/

theorem splitOnChar_of_not_mem {sep : Char} {s : Str} (h : sep ∉ s) :
    splitOnChar sep s = [s] := by
  induction s with
  | nil => rfl
  | cons c cs ih =>
    have hc : ¬c = sep := by rintro rfl; exact h (by simp)
    have ih' := ih (fun hm => h (by simp [hm]))
    simp only [splitOnChar, if_neg hc, ih']

theorem splitOnChar_append {sep : Char} {a : Str} (b : Str) (h : sep ∉ a) :
    splitOnChar sep (a ++ sep :: b) = a :: splitOnChar sep b := by
  induction a with
  | nil => simp [splitOnChar]
  | cons c cs ih =>
    have hc : ¬c = sep := by rintro rfl; exact h (by simp)
    have ih' := ih (fun hm => h (by simp [hm]))
    simp only [List.cons_append, splitOnChar, if_neg hc, List.append_eq, ih']

theorem natDigitsOnto_fuel : ∀ f1 f2 n acc, n < f1 → n < f2 →
    natDigitsOnto f1 n acc = natDigitsOnto f2 n acc := by
  intro f1
  induction f1 with
  | zero => intro f2 n acc h1 _; omega
  | succ f1 ih =>
    intro f2 n acc h1 h2
    cases f2 with
    | zero => omega
    | succ f2 =>
      by_cases h : n < 10
      · simp [natDigitsOnto, h]
      · simp only [natDigitsOnto, if_neg h]
        exact ih f2 (n / 10) _ (by omega) (by omega)

theorem natDigitsOnto_acc (n : Nat) : ∀ fuel acc, n < fuel →
    natDigitsOnto fuel n acc = natDigitsOnto fuel n [] ++ acc := by
  induction n using Nat.strong_induction_on with
  | _ n ih =>
    intro fuel acc hf
    cases fuel with
    | zero => omega
    | succ fuel =>
      by_cases h : n < 10
      · simp [natDigitsOnto, h]
      · simp only [natDigitsOnto, if_neg h]
        rw [ih (n / 10) (by omega) fuel _ (by omega),
          ih (n / 10) (by omega) fuel [digitCh n] (by omega)]
        simp

theorem natDigits_unfold (n : Nat) :
    natDigits n = (if n < 10 then [] else natDigits (n / 10)) ++ [digitCh n] := by
  by_cases h : n < 10
  · simp [natDigits, natDigitsOnto, h]
  · rw [natDigits, if_neg h]
    have hstep : natDigitsOnto (n + 1) n [] = natDigitsOnto n (n / 10) [digitCh n] := by
      simp [natDigitsOnto, h]
    rw [hstep, natDigitsOnto_fuel n (n / 10 + 1) (n / 10) _ (by omega) (by omega)]
    exact natDigitsOnto_acc (n / 10) (n / 10 + 1) [digitCh n] (by omega)

theorem digitCh_spec (n : Nat) :
    isDigitCh (digitCh n) = true ∧ (digitCh n).toNat - '0'.toNat = n % 10 := by
  have h : n % 10 < 10 := Nat.mod_lt _ (by omega)
  show isDigitCh (Char.ofNat ('0'.toNat + n % 10)) = true ∧
    (Char.ofNat ('0'.toNat + n % 10)).toNat - '0'.toNat = n % 10
  set k := n % 10 with hk
  interval_cases k <;> exact ⟨by decide, by decide⟩

theorem natDigits_digits (n : Nat) : ∀ c ∈ natDigits n, isDigitCh c = true := by
  induction n using Nat.strong_induction_on with
  | _ n ih =>
    rw [natDigits_unfold]
    intro c hc
    rcases List.mem_append.mp hc with h | h
    · by_cases h10 : n < 10
      · simp [h10] at h
      · exact ih (n / 10) (Nat.div_lt_self (by omega) (by omega)) c
          (by simpa [h10] using h)
    · rw [List.mem_singleton] at h
      subst h
      exact (digitCh_spec n).1

theorem natDigits_ne_nil (n : Nat) : natDigits n ≠ [] := by
  rw [natDigits_unfold]; simp

theorem digitsVal_snoc (xs : Str) (c : Char) :
    digitsVal (xs ++ [c]) = digitsVal xs * 10 + (c.toNat - '0'.toNat) := by
  unfold digitsVal
  rw [List.foldl_append, List.foldl_cons, List.foldl_nil]

theorem digitsVal_natDigits (n : Nat) : digitsVal (natDigits n) = n := by
  induction n using Nat.strong_induction_on with
  | _ n ih =>
    rw [natDigits_unfold, digitsVal_snoc, (digitCh_spec n).2]
    by_cases h : n < 10
    · have : digitsVal (if n < 10 then ([] : Str) else natDigits (n / 10)) = 0 := by
        simp [h, digitsVal]
      rw [this]; omega
    · rw [if_neg h, ih (n / 10) (Nat.div_lt_self (by omega) (by omega))]; omega

theorem foldl_zeros (k : Nat) :
    List.foldl (fun a c => a * 10 + (c.toNat - '0'.toNat)) 0
      (List.replicate k '0') = 0 := by
  induction k with
  | zero => rfl
  | succ k ih =>
    rw [List.replicate_succ, List.foldl_cons]
    norm_num
    exact ih

theorem digitsVal_replicate_zero (k : Nat) (s : Str) :
    digitsVal (List.replicate k '0' ++ s) = digitsVal s := by
  unfold digitsVal
  rw [List.foldl_append, foldl_zeros]

theorem digitsVal_padStart (k : Nat) (s : Str) :
    digitsVal (padStartChar '0' k s) = digitsVal s :=
  digitsVal_replicate_zero _ _

theorem padStart_digits {s : Str} (h : ∀ c ∈ s, isDigitCh c = true) (k : Nat) :
    ∀ c ∈ padStartChar '0' k s, isDigitCh c = true := by
  intro c hc
  rcases List.mem_append.mp hc with h0 | h0
  · rw [List.eq_of_mem_replicate h0]; decide
  · exact h c h0

theorem padStart_ne_nil {s : Str} (h : s ≠ []) (c : Char) (k : Nat) :
    padStartChar c k s ≠ [] := by
  simp [padStartChar, h]

theorem padStart_length (c : Char) (k : Nat) (s : Str) :
    (padStartChar c k s).length = max k s.length := by
  simp [padStartChar]; omega

theorem natDigits_length_le {n k : Nat} (hk : 0 < k) (h : n < 10 ^ k) :
    (natDigits n).length ≤ k := by
  induction k generalizing n with
  | zero => omega
  | succ k ih =>
    rw [natDigits_unfold]
    by_cases h10 : n < 10
    · simp [h10]
    · have hk' : 0 < k := by
        by_contra hc
        have : k = 0 := by omega
        subst this
        simp [pow_succ] at h
        omega
      have hn : n / 10 < 10 ^ k := by
        rw [Nat.div_lt_iff_lt_mul (by omega)]
        calc n < 10 ^ (k + 1) := h
        _ = 10 ^ k * 10 := by ring
      have := ih hk' hn
      simp only [if_neg h10, List.length_append, List.length_cons, List.length_nil]
      omega

/-- Every digit differs from the structural characters used by the codec,
and is not whitespace. -/
theorem digit_char_facts {c : Char} (h : isDigitCh c = true) :
    ¬c = ':' ∧ ¬c = '.' ∧ ¬c = '-' ∧ ¬c = '+' ∧ ¬c = 'I' ∧ isWsCh c = false := by
  refine ⟨?_, ?_, ?_, ?_, ?_, ?_⟩
  · rintro rfl; exact absurd h (by decide)
  · rintro rfl; exact absurd h (by decide)
  · rintro rfl; exact absurd h (by decide)
  · rintro rfl; exact absurd h (by decide)
  · rintro rfl; exact absurd h (by decide)
  · cases hw : isWsCh c
    · rfl
    · simp only [isWsCh, Bool.or_eq_true, decide_eq_true_eq] at hw
      rcases hw with ((((hw | hw) | hw) | hw) | hw) | hw <;>
        (subst hw; exact absurd h (by decide))

theorem not_mem_of_digits {sep : Char} {s : Str}
    (h : ∀ c ∈ s, isDigitCh c = true) (hsep : isDigitCh sep = false) : sep ∉ s := by
  intro hm
  rw [h sep hm] at hsep
  exact Bool.noConfusion hsep

theorem takeDigitsPre_all {ds : Str} (h : ∀ c ∈ ds, isDigitCh c = true) :
    takeDigitsPre ds = (ds, []) := by
  induction ds with
  | nil => rfl
  | cons c t ih =>
    have hc := h c (by simp)
    have ht := ih (fun x hx => h x (by simp [hx]))
    simp [takeDigitsPre, hc, ht]

theorem dblOverflow_eq : dblOverflow = 2 ^ 1024 - 2 ^ 970 := by
  norm_num [dblOverflow]

theorem parseFloatM_digits {ds : Str} (hne : ds ≠ [])
    (h : ∀ c ∈ ds, isDigitCh c = true) (hlt : digitsVal ds < dblOverflow) :
    parseFloatM ds = .fin (digitsVal ds) := by
  obtain ⟨c, t, rfl⟩ := List.exists_cons_of_ne_nil hne
  have hc := h c (by simp)
  obtain ⟨-, -, hminus, hplus, hI, hws⟩ := digit_char_facts hc
  have hdw : (c :: t).dropWhile isWsCh = c :: t := by
    simp [List.dropWhile_cons, hws]
  have hsign : splitSign (c :: t) = (1, c :: t) := by
    simp [splitSign, hminus, hplus]
  have hinf : hasInfPrefix (c :: t) = false := by
    simp only [hasInfPrefix]
    show List.isPrefixOf ('I' :: _) (c :: t) = false
    simp [List.isPrefixOf, Ne.symm hI]
  have htd := takeDigitsPre_all h
  simp only [parseFloatM, hdw, hsign, hinf, htd, fracPart, Bool.false_eq_true,
    if_false]
  rw [if_neg (by simp)]
  norm_num [parseExpSuffix, digitsVal, pow10]
  intro hov
  exfalso
  have hfold : digitsVal (c :: t) = List.foldl
      (fun a c => a * 10 + (c.toNat - '0'.toNat)) (c.toNat - '0'.toNat) t := by
    simp [digitsVal]
  omega

theorem parseIntM_digits {ds : Str} (hne : ds ≠ [])
    (h : ∀ c ∈ ds, isDigitCh c = true) :
    parseIntM ds = .fin (digitsVal ds) := by
  obtain ⟨c, t, rfl⟩ := List.exists_cons_of_ne_nil hne
  have hc := h c (by simp)
  obtain ⟨-, -, hminus, hplus, -, hws⟩ := digit_char_facts hc
  have hdw : (c :: t).dropWhile isWsCh = c :: t := by
    simp [List.dropWhile_cons, hws]
  have hsign : splitSign (c :: t) = (1, c :: t) := by
    simp [splitSign, hminus, hplus]
  have htd := takeDigitsPre_all h
  simp only [parseIntM, hdw, hsign, htd]
  norm_num
  exact fun hfalse => absurd hfalse (List.cons_ne_nil c t)

theorem not_mem_append_cons {x c : Char} {a b : Str} (ha : x ∉ a) (hc : ¬x = c)
    (hb : x ∉ b) : x ∉ a ++ c :: b := by
  intro hmem
  rcases List.mem_append.mp hmem with h | h
  · exact ha h
  · rcases List.mem_cons.mp h with h | h
    · exact hc h
    · exact hb h

/-! ## Evaluation of the Timecode Codec on well-formed groups -/

theorem map_parseFloat_two {a b : Str} (ha : DigitStr a) (hb : DigitStr b)
    (ha2 : digitsVal a < dblOverflow) (hb2 : digitsVal b < dblOverflow) :
    (splitOnChar '.' (a ++ '.' :: b)).map parseFloatM
      = [.fin (digitsVal a), .fin (digitsVal b)] := by
  rw [splitOnChar_append b (not_mem_of_digits ha.2 (by decide)),
    splitOnChar_of_not_mem (not_mem_of_digits hb.2 (by decide))]
  simp [parseFloatM_digits ha.1 ha.2 ha2, parseFloatM_digits hb.1 hb.2 hb2]

theorem timeToSecs_three {dh dm ds dms : Str} (h1 : DigitStr dh)
    (h2 : DigitStr dm) (h3 : DigitStr ds) (h4 : DigitStr dms)
    (b1 : digitsVal dh < dblOverflow) (b2 : digitsVal dm < dblOverflow)
    (b3 : digitsVal ds < dblOverflow) (b4 : digitsVal dms < dblOverflow) :
    timeToSecs (dh ++ ':' :: (dm ++ ':' :: (ds ++ '.' :: dms)))
      = .fin ((digitsVal dh : ℚ) * 3600 + (digitsVal dm : ℚ) * 60
          + (digitsVal ds : ℚ) + (digitsVal dms : ℚ) / 1000) := by
  have hne0 : ¬dh ++ ':' :: (dm ++ ':' :: (ds ++ '.' :: dms)) = [] := by simp
  have hlast : (':' : Char) ∉ ds ++ '.' :: dms :=
    not_mem_append_cons (not_mem_of_digits h3.2 (by decide)) (by decide)
      (not_mem_of_digits h4.2 (by decide))
  have hsplit : splitOnChar ':' (dh ++ ':' :: (dm ++ ':' :: (ds ++ '.' :: dms)))
      = [dh, dm, ds ++ '.' :: dms] := by
    rw [splitOnChar_append _ (not_mem_of_digits h1.2 (by decide)),
      splitOnChar_append _ (not_mem_of_digits h2.2 (by decide)),
      splitOnChar_of_not_mem hlast]
  simp only [timeToSecs, hne0, if_neg, if_false, hsplit, List.length_cons,
    List.length_nil, List.getD_cons_zero, List.getD_cons_succ,
    map_parseFloat_two h3 h4 b3 b4, jsIdxOrZero, List.get?, JSNum.orZero]
  norm_num [parseFloatM_digits h1.1 h1.2 b1, parseFloatM_digits h2.1 h2.2 b2,
    JSNum.mul, JSNum.add, JSNum.div]

theorem timeToSecs_two {dm ds dms : Str} (h2 : DigitStr dm) (h3 : DigitStr ds)
    (h4 : DigitStr dms) (b2 : digitsVal dm < dblOverflow)
    (b3 : digitsVal ds < dblOverflow) (b4 : digitsVal dms < dblOverflow) :
    timeToSecs (dm ++ ':' :: (ds ++ '.' :: dms))
      = .fin ((digitsVal dm : ℚ) * 60 + (digitsVal ds : ℚ)
          + (digitsVal dms : ℚ) / 1000) := by
  have hne0 : ¬dm ++ ':' :: (ds ++ '.' :: dms) = [] := by simp
  have hlast : (':' : Char) ∉ ds ++ '.' :: dms :=
    not_mem_append_cons (not_mem_of_digits h3.2 (by decide)) (by decide)
      (not_mem_of_digits h4.2 (by decide))
  have hsplit : splitOnChar ':' (dm ++ ':' :: (ds ++ '.' :: dms))
      = [dm, ds ++ '.' :: dms] := by
    rw [splitOnChar_append _ (not_mem_of_digits h2.2 (by decide)),
      splitOnChar_of_not_mem hlast]
  simp only [timeToSecs, hne0, if_neg, if_false, hsplit, List.length_cons,
    List.length_nil, List.getD_cons_zero, List.getD_cons_succ,
    map_parseFloat_two h3 h4 b3 b4, jsIdxOrZero, List.get?, JSNum.orZero]
  norm_num [parseFloatM_digits h2.1 h2.2 b2, JSNum.mul, JSNum.add, JSNum.div]

theorem timeToSecsC_three {dh dm ds dms : Str} (h1 : DigitStr dh)
    (h2 : DigitStr dm) (h3 : DigitStr ds) (h4 : DigitStr dms)
    (b1 : digitsVal dh < dblOverflow) (b2 : digitsVal dm < dblOverflow)
    (b3 : digitsVal ds < dblOverflow) (b4 : digitsVal dms < dblOverflow) :
    timeToSecsC (dh ++ ':' :: (dm ++ ':' :: (ds ++ '.' :: dms)))
      = .fin ((digitsVal dh : ℚ) * 3600 + (digitsVal dm : ℚ) * 60
          + (digitsVal ds : ℚ) + (digitsVal dms : ℚ) / 1000) := by
  have hne0 : ¬dh ++ ':' :: (dm ++ ':' :: (ds ++ '.' :: dms)) = [] := by simp
  have hlast : (':' : Char) ∉ ds ++ '.' :: dms :=
    not_mem_append_cons (not_mem_of_digits h3.2 (by decide)) (by decide)
      (not_mem_of_digits h4.2 (by decide))
  have hsplit : splitOnChar ':' (dh ++ ':' :: (dm ++ ':' :: (ds ++ '.' :: dms)))
      = [dh, dm, ds ++ '.' :: dms] := by
    rw [splitOnChar_append _ (not_mem_of_digits h1.2 (by decide)),
      splitOnChar_append _ (not_mem_of_digits h2.2 (by decide)),
      splitOnChar_of_not_mem hlast]
  simp only [timeToSecsC, hne0, if_neg, if_false, hsplit, List.length_cons,
    List.length_nil, List.getD_cons_zero, List.getD_cons_succ,
    map_parseFloat_two h3 h4 b3 b4, jsIdxOrZero, List.get?, JSNum.orZero]
  norm_num [parseFloatM_digits h1.1 h1.2 b1, parseFloatM_digits h2.1 h2.2 b2,
    JSNum.mul, JSNum.add, JSNum.div]

theorem timeToSecsC_two {dm ds dms : Str} (h2 : DigitStr dm) (h3 : DigitStr ds)
    (h4 : DigitStr dms) (b2 : digitsVal dm < dblOverflow)
    (b3 : digitsVal ds < dblOverflow) (b4 : digitsVal dms < dblOverflow) :
    timeToSecsC (dm ++ ':' :: (ds ++ '.' :: dms))
      = .fin ((digitsVal dm : ℚ) * 60 + (digitsVal ds : ℚ)
          + (digitsVal dms : ℚ) / 1000) := by
  have hne0 : ¬dm ++ ':' :: (ds ++ '.' :: dms) = [] := by simp
  have hlast : (':' : Char) ∉ ds ++ '.' :: dms :=
    not_mem_append_cons (not_mem_of_digits h3.2 (by decide)) (by decide)
      (not_mem_of_digits h4.2 (by decide))
  have hsplit : splitOnChar ':' (dm ++ ':' :: (ds ++ '.' :: dms))
      = [dm, ds ++ '.' :: dms] := by
    rw [splitOnChar_append _ (not_mem_of_digits h2.2 (by decide)),
      splitOnChar_of_not_mem hlast]
  simp only [timeToSecsC, hne0, if_neg, if_false, hsplit, List.length_cons,
    List.length_nil, List.getD_cons_zero, List.getD_cons_succ,
    map_parseFloat_two h3 h4 b3 b4, jsIdxOrZero, List.get?, JSNum.orZero]
  norm_num [parseFloatM_digits h2.1 h2.2 b2, JSNum.mul, JSNum.add, JSNum.div]

theorem timeToSecsC_one {ds dms : Str} (h3 : DigitStr ds) (h4 : DigitStr dms)
    (b3 : digitsVal ds < dblOverflow) (b4 : digitsVal dms < dblOverflow) :
    timeToSecsC (ds ++ '.' :: dms)
      = .fin ((digitsVal ds : ℚ) + (digitsVal dms : ℚ) / 1000) := by
  have hne0 : ¬ds ++ '.' :: dms = [] := by simp
  have hlast : (':' : Char) ∉ ds ++ '.' :: dms :=
    not_mem_append_cons (not_mem_of_digits h3.2 (by decide)) (by decide)
      (not_mem_of_digits h4.2 (by decide))
  have hsplit : splitOnChar ':' (ds ++ '.' :: dms) = [ds ++ '.' :: dms] :=
    splitOnChar_of_not_mem hlast
  simp only [timeToSecsC, hne0, if_neg, if_false, hsplit, List.length_cons,
    List.length_nil, List.getD_cons_zero,
    map_parseFloat_two h3 h4 b3 b4, jsIdxOrZero, List.get?, JSNum.orZero]
  norm_num [JSNum.add, JSNum.div]

/-! ## Evaluation of the subtitle-time formatter on canonical timecodes -/

theorem digitStr_natDigits (n : Nat) : DigitStr (natDigits n) :=
  ⟨natDigits_ne_nil n, natDigits_digits n⟩

theorem digitStr_pad (k n : Nat) : DigitStr (padStartChar '0' k (natDigits n)) :=
  ⟨padStart_ne_nil (natDigits_ne_nil n) _ _, padStart_digits (natDigits_digits n) _⟩

theorem digitStr_pad2 (n : Nat) : DigitStr (pad2 n) := digitStr_pad 2 n

theorem digitStr_pad3 (n : Nat) : DigitStr (pad3 n) := digitStr_pad 3 n

theorem digitsVal_pad2 (n : Nat) : digitsVal (pad2 n) = n := by
  rw [pad2, digitsVal_padStart, digitsVal_natDigits]

theorem digitsVal_pad3 (n : Nat) : digitsVal (pad3 n) = n := by
  rw [pad3, digitsVal_padStart, digitsVal_natDigits]

theorem floor_half_up_div_ten (n : Nat) :
    ⌊(n : ℚ) / 10 + 1 / 2⌋ = (((n + 5) / 10 : ℕ) : ℤ) := by
  have hx : (n : ℚ) / 10 + 1 / 2 = ((n + 5 : ℕ) : ℚ) / ((10 : ℕ) : ℚ) := by
    push_cast; ring
  rw [hx, ← Int.natCast_floor_eq_floor (by positivity), Nat.floor_div_nat,
    Nat.floor_natCast]

theorem toStr_intCast_nat (k : Nat) :
    JSNum.toStr (.fin ((k : ℤ) : ℚ)) = natDigits k := by
  have h1 : (((k : ℤ) : ℚ)).den = 1 := Rat.den_intCast _
  have h2 : (((k : ℤ) : ℚ)).num = (k : ℤ) := Rat.num_intCast _
  simp [JSNum.toStr, h1, h2, Int.not_lt.mpr (Int.natCast_nonneg k)]

theorem toStr_natCast (k : Nat) : JSNum.toStr (.fin (k : ℚ)) = natDigits k := by
  have hc : ((k : ℚ)) = ((k : ℤ) : ℚ) := by push_cast; rfl
  rw [hc, toStr_intCast_nat]

/-- The centisecond field computed for a canonical (3-digit) millisecond
part: `round(ms / 10)`, zero-padded to two digits. -/
theorem csField_pad3 {ms : Nat} (hms : ms < 1000) :
    csField (padEndChar '0' 3 (pad3 ms))
      = padStartChar '0' 2 (natDigits ((ms + 5) / 10)) := by
  have hlen : (pad3 ms).length = 3 := by
    rw [pad3, padStart_length]
    have := natDigits_length_le (k := 3) (by omega) (by omega : ms < 10 ^ 3)
    have hpos : 1 ≤ (natDigits ms).length := by
      cases hd : natDigits ms with
      | nil => exact absurd hd (natDigits_ne_nil ms)
      | cons a t => simp
    omega
  have hpe : padEndChar '0' 3 (pad3 ms) = pad3 ms := by
    rw [padEndChar, hlen]
    simp
  have hpi : parseIntM (pad3 ms) = .fin (digitsVal (pad3 ms)) :=
    parseIntM_digits (digitStr_pad3 ms).1 (digitStr_pad3 ms).2
  rw [hpe, csField, hpi, digitsVal_pad3]
  have hdiv : JSNum.div (.fin (ms : ℚ)) (.fin 10) = .fin ((ms : ℚ) / 10) := by
    simp [JSNum.div]
  rw [hdiv]
  show padStartChar '0' 2 (JSNum.toStr (.fin _)) = _
  rw [show (⌊(ms : ℚ) / 10 + 1 / 2⌋ : ℤ) = (((ms + 5) / 10 : ℕ) : ℤ) from
    floor_half_up_div_ten ms, toStr_intCast_nat]

/-- `toAssTimeC` on a canonical zero-padded `HH:MM:SS.mmm` timecode: hours
unpadded, minute and second groups passed through, centiseconds from
`round(ms / 10)`. -/
theorem toAssTimeC_canonical {h m s ms : Nat} (hms : ms < 1000) :
    toAssTimeC (pad2 h ++ ':' :: (pad2 m ++ ':' :: (pad2 s ++ '.' :: pad3 ms)))
      = natDigits h ++ ':' :: (pad2 m ++ ':' :: (pad2 s ++ '.' ::
          padStartChar '0' 2 (natDigits ((ms + 5) / 10)))) := by
  have hassoc : pad2 h ++ ':' :: (pad2 m ++ ':' :: (pad2 s ++ '.' :: pad3 ms))
      = (pad2 h ++ ':' :: (pad2 m ++ ':' :: pad2 s)) ++ '.' :: pad3 ms := by
    simp
  have hne0 : ¬pad2 h ++ ':' :: (pad2 m ++ ':' :: (pad2 s ++ '.' :: pad3 ms))
      = [] := by simp
  have hdotfree : ('.' : Char) ∉ pad2 h ++ ':' :: (pad2 m ++ ':' :: pad2 s) :=
    not_mem_append_cons (not_mem_of_digits (digitStr_pad2 h).2 (by decide))
      (by decide)
      (not_mem_append_cons (not_mem_of_digits (digitStr_pad2 m).2 (by decide))
        (by decide) (not_mem_of_digits (digitStr_pad2 s).2 (by decide)))
  have hdot : splitOnChar '.'
      (pad2 h ++ ':' :: (pad2 m ++ ':' :: (pad2 s ++ '.' :: pad3 ms)))
      = [pad2 h ++ ':' :: (pad2 m ++ ':' :: pad2 s), pad3 ms] := by
    rw [hassoc, splitOnChar_append _ hdotfree,
      splitOnChar_of_not_mem (not_mem_of_digits (digitStr_pad3 ms).2 (by decide))]
  have hcolon : splitOnChar ':' (pad2 h ++ ':' :: (pad2 m ++ ':' :: pad2 s))
      = [pad2 h, pad2 m, pad2 s] := by
    rw [splitOnChar_append _ (not_mem_of_digits (digitStr_pad2 h).2 (by decide)),
      splitOnChar_append _ (not_mem_of_digits (digitStr_pad2 m).2 (by decide)),
      splitOnChar_of_not_mem (not_mem_of_digits (digitStr_pad2 s).2 (by decide))]
  have hidx : jsIdxOrStr [pad2 h ++ ':' :: (pad2 m ++ ':' :: pad2 s), pad3 ms] 1
      "000".toList = pad3 ms := by
    simp [jsIdxOrStr, (digitStr_pad3 ms).1]
  have hpi : parseIntM (pad2 h) = .fin (digitsVal (pad2 h)) :=
    parseIntM_digits (digitStr_pad2 h).1 (digitStr_pad2 h).2
  simp only [toAssTimeC, hne0, if_neg, if_false, hdot, hidx, csField_pad3 hms,
    List.getD_cons_zero, List.getD_cons_succ, hcolon, List.length_cons,
    List.length_nil, hpi, digitsVal_pad2, toStr_natCast]
  norm_num

/-! ## Finiteness helpers -/

theorem JSNum.isFinite_add {x y : JSNum} (hx : x.isFinite = true)
    (hy : y.isFinite = true) : (x.add y).isFinite = true := by
  cases x <;> cases y <;> simp_all [JSNum.isFinite, JSNum.add]

theorem orZero_finite_of_not_inf {x : JSNum} (h1 : ¬x = .posInf)
    (h2 : ¬x = .negInf) : x.orZero.isFinite = true := by
  cases x <;> simp_all [JSNum.orZero, JSNum.isFinite]

theorem isFinite_div1000 {x : JSNum} (hx : x.isFinite = true) :
    (x.div (.fin 1000)).isFinite = true := by
  cases x with
  | fin a => simp [JSNum.div, JSNum.isFinite, (by norm_num : ¬(1000 : ℚ) = 0)]
  | nan => simp [JSNum.isFinite] at hx
  | posInf => simp [JSNum.isFinite] at hx
  | negInf => simp [JSNum.isFinite] at hx

theorem jsIdxOrZero_finite {g : Str} (i : Nat)
    (hg : ∀ piece ∈ splitOnChar '.' g,
      ¬parseFloatM piece = .posInf ∧ ¬parseFloatM piece = .negInf) :
    (jsIdxOrZero ((splitOnChar '.' g).map parseFloatM) i).isFinite = true := by
  unfold jsIdxOrZero
  rw [List.get?_map]
  cases hget : (splitOnChar '.' g).get? i with
  | none => rfl
  | some p =>
    have hp : p ∈ splitOnChar '.' g := List.get?_mem hget
    exact orZero_finite_of_not_inf (hg p hp).1 (hg p hp).2

theorem jsIdxOrZero_nan {g : Str} (i : Nat)
    (hg : ∀ piece ∈ splitOnChar '.' g, parseFloatM piece = .nan) :
    jsIdxOrZero ((splitOnChar '.' g).map parseFloatM) i = .fin 0 := by
  unfold jsIdxOrZero
  rw [List.get?_map]
  cases hget : (splitOnChar '.' g).get? i with
  | none => rfl
  | some p =>
    simp only [Option.map_some']
    rw [hg p (List.get?_mem hget)]
    rfl

/-! ## Claim C1 — the format/parse round trip -/

/-- C1, as stated, is false: `toAssTimeC` ("formatForSubtitle") emits a
two-digit *centisecond* field, but `timeToSecsC` ("parseTimecode") reads the
fractional field as literal *milliseconds*, so `"00:00:00.450"` (0.45 s)
formats to `"0:00:00.45"` and reparses as 0.045 s — an error of 0.405,
far above the claimed 0.01. -/
theorem C1_roundtrip_counterexample :
    timeToSecsC "00:00:00.450".toList = .fin (9 / 20) ∧
    toAssTimeC "00:00:00.450".toList = "0:00:00.45".toList ∧
    timeToSecsC "0:00:00.45".toList = .fin (9 / 200) ∧
    ¬|(9 : ℚ) / 200 - 9 / 20| < 1 / 100 := by
  refine ⟨?_, ?_, ?_, by norm_num [abs_of_neg]⟩
  · have hd : "00:00:00.450".toList
        = "00".toList ++ ':' :: ("00".toList ++ ':' :: ("00".toList ++ '.' ::
          "450".toList)) := by decide
    rw [hd, timeToSecsC_three ⟨by decide, by decide⟩ ⟨by decide, by decide⟩
      ⟨by decide, by decide⟩ ⟨by decide, by decide⟩ (by decide) (by decide)
      (by decide) (by decide)]
    norm_num [show digitsVal ['0', '0'] = 0 from rfl,
      show digitsVal ['4', '5', '0'] = 450 from rfl]
  · have hd : "00:00:00.450".toList
        = pad2 0 ++ ':' :: (pad2 0 ++ ':' :: (pad2 0 ++ '.' :: pad3 450)) := by
      decide
    rw [hd, toAssTimeC_canonical (by norm_num)]
    decide
  · have hd : "0:00:00.45".toList
        = "0".toList ++ ':' :: ("00".toList ++ ':' :: ("00".toList ++ '.' ::
          "45".toList)) := by decide
    rw [hd, timeToSecsC_three ⟨by decide, by decide⟩ ⟨by decide, by decide⟩
      ⟨by decide, by decide⟩ ⟨by decide, by decide⟩ (by decide) (by decide)
      (by decide) (by decide)]
    norm_num [show digitsVal ['0'] = 0 from rfl,
      show digitsVal ['0', '0'] = 0 from rfl,
      show digitsVal ['4', '5'] = 45 from rfl]

/-- C1 (amended): for every canonical zero-padded timecode `HH:MM:SS.mmm`
(hour/minute/second values below the double-overflow threshold — every
two-digit field qualifies — and `mmm < 1000`), the round trip
`parseTimecode ∘ formatForSubtitle` differs from `parseTimecode` by less than
**0.9 seconds** (not 0.01: the centisecond field `round(mmm/10)` is reparsed
as a millisecond count, dividing the fractional part by ten). -/
theorem C1_roundtrip_amended (h m s ms : Nat) (hms : ms < 1000)
    (bh : h < dblOverflow) (bm : m < dblOverflow) (bs : s < dblOverflow) :
    ∃ q q' : ℚ,
      timeToSecsC (pad2 h ++ ':' :: (pad2 m ++ ':' :: (pad2 s ++ '.' :: pad3 ms)))
        = .fin q ∧
      timeToSecsC (toAssTimeC
          (pad2 h ++ ':' :: (pad2 m ++ ':' :: (pad2 s ++ '.' :: pad3 ms))))
        = .fin q' ∧
      |q' - q| < 9 / 10 := by
  refine ⟨(h : ℚ) * 3600 + (m : ℚ) * 60 + (s : ℚ) + (ms : ℚ) / 1000,
    (h : ℚ) * 3600 + (m : ℚ) * 60 + (s : ℚ) + (((ms + 5) / 10 : ℕ) : ℚ) / 1000,
    ?_, ?_, ?_⟩
  · have key := timeToSecsC_three (digitStr_pad2 h) (digitStr_pad2 m)
      (digitStr_pad2 s) (digitStr_pad3 ms)
      (by rw [digitsVal_pad2]; exact bh) (by rw [digitsVal_pad2]; exact bm)
      (by rw [digitsVal_pad2]; exact bs)
      (by rw [digitsVal_pad3]; exact lt_trans hms (by decide))
    rwa [digitsVal_pad2, digitsVal_pad2, digitsVal_pad2, digitsVal_pad3] at key
  · rw [toAssTimeC_canonical hms]
    have key := timeToSecsC_three (digitStr_natDigits h) (digitStr_pad2 m)
      (digitStr_pad2 s) (digitStr_pad 2 ((ms + 5) / 10))
      (by rw [digitsVal_natDigits]; exact bh)
      (by rw [digitsVal_pad2]; exact bm) (by rw [digitsVal_pad2]; exact bs)
      (by rw [digitsVal_padStart, digitsVal_natDigits]
          exact lt_trans (by omega : (ms + 5) / 10 < 1000) (by decide))
    rwa [digitsVal_natDigits, digitsVal_pad2, digitsVal_pad2,
      digitsVal_padStart, digitsVal_natDigits] at key
  · set k := (ms + 5) / 10 with hk
    have hb : |((k : ℕ) : ℤ) - (ms : ℤ)| ≤ 899 := by
      rw [abs_le]
      omega
    have heq : ((h : ℚ) * 3600 + (m : ℚ) * 60 + (s : ℚ) + ((k : ℕ) : ℚ) / 1000)
        - ((h : ℚ) * 3600 + (m : ℚ) * 60 + (s : ℚ) + (ms : ℚ) / 1000)
        = ((((k : ℕ) : ℤ) - (ms : ℤ) : ℤ) : ℚ) / 1000 := by
      push_cast
      ring
    rw [heq, abs_div, abs_of_pos (by norm_num : (0 : ℚ) < 1000),
      div_lt_iff (by norm_num : (0 : ℚ) < 1000), ← Int.cast_abs]
    have hcast : ((|((k : ℕ) : ℤ) - (ms : ℤ)| : ℤ) : ℚ) ≤ 899 := by
      exact_mod_cast hb
    linarith

/-- Witness: the amended C1 bound at the counterexample's own input
`00:00:01.995`. -/
theorem C1_roundtrip_witness :
    ((995 : ℕ) < 1000 ∧ (0 : ℕ) < dblOverflow ∧ (1 : ℕ) < dblOverflow) ∧
    ∃ q q' : ℚ,
      timeToSecsC (pad2 0 ++ ':' :: (pad2 0 ++ ':' :: (pad2 1 ++ '.' :: pad3 995)))
        = .fin q ∧
      timeToSecsC (toAssTimeC
          (pad2 0 ++ ':' :: (pad2 0 ++ ':' :: (pad2 1 ++ '.' :: pad3 995))))
        = .fin q' ∧
      |q' - q| < 9 / 10 :=
  ⟨⟨by decide, by decide, by decide⟩,
   C1_roundtrip_amended 0 0 1 995 (by decide) (by decide) (by decide)
     (by decide)⟩

/-! ## Claim C2 — totality of the timecode parser -/

/-- C2, as stated, is false: a non-numeric *hours* (or minutes) group is fed
to `parseFloat` with no `|| 0` guard, so `"x:00:00"` evaluates to
`NaN * 3600 + … = NaN` — the parser neither returns a finite number nor
degrades the group to `0` (it does not throw, which is modelled by
`timeToSecs` being a total function). -/
theorem C2_totality_counterexample :
    timeToSecs "x:00:00".toList = JSNum.nan ∧
    (timeToSecs "x:00:00".toList).isFinite = false ∧
    ¬timeToSecs "x:00:00".toList = .fin 0 := by
  refine ⟨by decide, by decide, by decide⟩

set_option maxRecDepth 2048 in
/-- C2 (amended): both `parseTimecode` variants are total (each branch of the
model returns a value; the source never throws).  The `src/utils/utils.ts`
parser returns `0` for group counts other than 2 and 3, the client parser for
group counts other than 1, 2 and 3.  With digit hour/minute groups below the
double-overflow threshold and no piece of the final group parsing to an
infinity, the result is finite, and a final group all of whose `.`-pieces are
non-numeric degrades to `0`.  But a non-numeric leading group yields NaN (see
the counterexample), and an overflowing final group — `parseFloat` rounds it
to `Infinity` — propagates that infinity to the result: in neither case a
finite number or `0`. -/
theorem C2_totality_amended :
    (∀ tc : Str, ¬(splitOnChar ':' tc).length = 2 →
      ¬(splitOnChar ':' tc).length = 3 → timeToSecs tc = .fin 0) ∧
    (∀ tc : Str, ¬(splitOnChar ':' tc).length = 3 →
      ¬(splitOnChar ':' tc).length = 2 → ¬(splitOnChar ':' tc).length = 1 →
      timeToSecsC tc = .fin 0) ∧
    (∀ dm g : Str, DigitStr dm → digitsVal dm < dblOverflow →
      (':' : Char) ∉ g →
      (∀ piece ∈ splitOnChar '.' g,
        ¬parseFloatM piece = .posInf ∧ ¬parseFloatM piece = .negInf) →
      (timeToSecs (dm ++ ':' :: g)).isFinite = true) ∧
    (∀ dh dm g : Str, DigitStr dh → DigitStr dm →
      digitsVal dh < dblOverflow → digitsVal dm < dblOverflow →
      (':' : Char) ∉ g →
      (∀ piece ∈ splitOnChar '.' g,
        ¬parseFloatM piece = .posInf ∧ ¬parseFloatM piece = .negInf) →
      (timeToSecs (dh ++ ':' :: (dm ++ ':' :: g))).isFinite = true) ∧
    (∀ g : Str, (':' : Char) ∉ g →
      (∀ piece ∈ splitOnChar '.' g,
        ¬parseFloatM piece = .posInf ∧ ¬parseFloatM piece = .negInf) →
      (timeToSecsC g).isFinite = true) ∧
    (∀ dm g : Str, DigitStr dm → digitsVal dm < dblOverflow →
      (':' : Char) ∉ g →
      (∀ piece ∈ splitOnChar '.' g, parseFloatM piece = .nan) →
      timeToSecs (dm ++ ':' :: g) = .fin ((digitsVal dm : ℚ) * 60)) ∧
    timeToSecs ("0".toList ++ ':' :: "1e309".toList) = .posInf := by
  refine ⟨?_, ?_, ?_, ?_, ?_, ?_, by decide⟩
  · intro tc h2 h3
    by_cases g1 : tc = []
    · simp [timeToSecs, g1]
    · simp only [timeToSecs, if_neg g1, if_neg h2, if_neg h3]
  · intro tc h3 h2 h1
    by_cases g1 : tc = []
    · simp [timeToSecsC, g1]
    · simp only [timeToSecsC, if_neg g1, if_neg h3, if_neg h2, if_neg h1]
  · intro dm g hdm bdm hcg hg
    have hne0 : ¬dm ++ ':' :: g = [] := by simp
    have hsplit : splitOnChar ':' (dm ++ ':' :: g) = [dm, g] := by
      rw [splitOnChar_append _ (not_mem_of_digits hdm.2 (by decide)),
        splitOnChar_of_not_mem hcg]
    simp only [timeToSecs, hne0, if_false, hsplit, List.length_cons,
      List.length_nil, List.getD_cons_zero, List.getD_cons_succ]
    norm_num
    rw [parseFloatM_digits hdm.1 hdm.2 bdm]
    exact JSNum.isFinite_add
      (JSNum.isFinite_add rfl (jsIdxOrZero_finite 0 hg))
      (isFinite_div1000 (jsIdxOrZero_finite 1 hg))
  · intro dh dm g hdh hdm bdh bdm hcg hg
    have hne0 : ¬dh ++ ':' :: (dm ++ ':' :: g) = [] := by simp
    have hsplit : splitOnChar ':' (dh ++ ':' :: (dm ++ ':' :: g))
        = [dh, dm, g] := by
      rw [splitOnChar_append _ (not_mem_of_digits hdh.2 (by decide)),
        splitOnChar_append _ (not_mem_of_digits hdm.2 (by decide)),
        splitOnChar_of_not_mem hcg]
    simp only [timeToSecs, hne0, if_false, hsplit, List.length_cons,
      List.length_nil, List.getD_cons_zero, List.getD_cons_succ]
    norm_num
    rw [parseFloatM_digits hdh.1 hdh.2 bdh, parseFloatM_digits hdm.1 hdm.2 bdm]
    exact JSNum.isFinite_add
      (JSNum.isFinite_add (JSNum.isFinite_add rfl rfl)
        (jsIdxOrZero_finite 0 hg))
      (isFinite_div1000 (jsIdxOrZero_finite 1 hg))
  · intro g hcg hg
    by_cases hge : g = []
    · subst hge; rfl
    · have hsplit : splitOnChar ':' g = [g] := splitOnChar_of_not_mem hcg
      have h3 : ¬(splitOnChar ':' g).length = 3 := by rw [hsplit]; simp
      have h2 : ¬(splitOnChar ':' g).length = 2 := by rw [hsplit]; simp
      have h1 : (splitOnChar ':' g).length = 1 := by rw [hsplit]; rfl
      simp only [timeToSecsC, if_neg hge, if_neg h3, if_neg h2, if_pos h1,
        hsplit, List.getD_cons_zero]
      exact JSNum.isFinite_add (jsIdxOrZero_finite 0 hg)
        (isFinite_div1000 (jsIdxOrZero_finite 1 hg))
  · intro dm g hdm bdm hcg hg
    have hne0 : ¬dm ++ ':' :: g = [] := by simp
    have hsplit : splitOnChar ':' (dm ++ ':' :: g) = [dm, g] := by
      rw [splitOnChar_append _ (not_mem_of_digits hdm.2 (by decide)),
        splitOnChar_of_not_mem hcg]
    simp only [timeToSecs, hne0, if_false, hsplit, List.length_cons,
      List.length_nil, List.getD_cons_zero, List.getD_cons_succ]
    norm_num
    rw [parseFloatM_digits hdm.1 hdm.2 bdm, jsIdxOrZero_nan 0 hg,
      jsIdxOrZero_nan 1 hg]
    show JSNum.fin _ = _
    norm_num

/-- Witness: the amended C2 at concrete inputs (`"ab:cd:ef:gh"` has no group
shape for either parser; `"12:zz"` has numeric minutes and a non-numeric
final group; `"zz"` is a colon-free non-numeric group for the client
parser). -/
theorem C2_totality_witness :
    timeToSecs "ab:cd:ef:gh".toList = .fin 0 ∧
    timeToSecsC "ab:cd:ef:gh".toList = .fin 0 ∧
    (timeToSecs ("12".toList ++ ':' :: "zz".toList)).isFinite = true ∧
    (timeToSecsC "zz".toList).isFinite = true ∧
    timeToSecs ("12".toList ++ ':' :: "zz".toList)
      = .fin ((digitsVal "12".toList : ℚ) * 60) :=
  ⟨C2_totality_amended.1 _ (by decide) (by decide),
   C2_totality_amended.2.1 _ (by decide) (by decide) (by decide),
   C2_totality_amended.2.2.1 _ _ ⟨by decide, by decide⟩ (by decide)
     (by decide) (by decide),
   C2_totality_amended.2.2.2.2.1 _ (by decide) (by decide),
   C2_totality_amended.2.2.2.2.2.1 _ _ ⟨by decide, by decide⟩ (by decide)
     (by decide) (by decide)⟩

/-! ## Claim C3 — interpretation of 3/2/1 colon groups -/

/-- C3, as stated, is false for the `src/utils/utils.ts` parser: it has no
single-group branch, so `"5.250"` parses to `0`, not `5.25` (the client
parser does return `5.25`, as the amended claim below records). -/
theorem C3_groups_counterexample :
    timeToSecs "5.250".toList = .fin 0 ∧
    ¬timeToSecs "5.250".toList = .fin (21 / 4) := by
  constructor
  · decide
  · intro h
    have h0 : (0 : ℚ) = 21 / 4 := by
      have hz : timeToSecs "5.250".toList = .fin 0 := by decide
      injection (hz ▸ h)
    norm_num at h0

/-- C3 (amended): the 3- and 2-group formulas hold in both parser variants
for digit groups below the double-overflow threshold (with the fractional
digits read as a literal millisecond count); a single colon-free group parses
as seconds plus milliseconds in the *client* parser, while the
`src/utils/utils.ts` parser returns `0` for it (e.g. `"5.250"`); the spec's
numeric examples hold in both variants. -/
theorem C3_groups_amended :
    (∀ dh dm ds dms : Str, DigitStr dh → DigitStr dm → DigitStr ds →
      DigitStr dms → digitsVal dh < dblOverflow → digitsVal dm < dblOverflow →
      digitsVal ds < dblOverflow → digitsVal dms < dblOverflow →
      timeToSecs (dh ++ ':' :: (dm ++ ':' :: (ds ++ '.' :: dms)))
        = .fin ((digitsVal dh : ℚ) * 3600 + (digitsVal dm : ℚ) * 60
            + (digitsVal ds : ℚ) + (digitsVal dms : ℚ) / 1000) ∧
      timeToSecsC (dh ++ ':' :: (dm ++ ':' :: (ds ++ '.' :: dms)))
        = .fin ((digitsVal dh : ℚ) * 3600 + (digitsVal dm : ℚ) * 60
            + (digitsVal ds : ℚ) + (digitsVal dms : ℚ) / 1000)) ∧
    (∀ dm ds dms : Str, DigitStr dm → DigitStr ds → DigitStr dms →
      digitsVal dm < dblOverflow → digitsVal ds < dblOverflow →
      digitsVal dms < dblOverflow →
      timeToSecs (dm ++ ':' :: (ds ++ '.' :: dms))
        = .fin ((digitsVal dm : ℚ) * 60 + (digitsVal ds : ℚ)
            + (digitsVal dms : ℚ) / 1000) ∧
      timeToSecsC (dm ++ ':' :: (ds ++ '.' :: dms))
        = .fin ((digitsVal dm : ℚ) * 60 + (digitsVal ds : ℚ)
            + (digitsVal dms : ℚ) / 1000)) ∧
    (∀ ds dms : Str, DigitStr ds → DigitStr dms →
      digitsVal ds < dblOverflow → digitsVal dms < dblOverflow →
      timeToSecsC (ds ++ '.' :: dms)
        = .fin ((digitsVal ds : ℚ) + (digitsVal dms : ℚ) / 1000)) ∧
    (∀ ds dms : Str, DigitStr ds → DigitStr dms → (':' : Char) ∉ ds →
      timeToSecs (ds ++ '.' :: dms) = .fin 0) ∧
    (timeToSecs "01:02:03.450".toList = .fin (74469 / 20) ∧
      timeToSecsC "01:02:03.450".toList = .fin (74469 / 20)) ∧
    (timeToSecs "02:03.450".toList = .fin (2469 / 20) ∧
      timeToSecsC "02:03.450".toList = .fin (2469 / 20)) ∧
    timeToSecsC "5.250".toList = .fin (21 / 4) ∧
    timeToSecs [] = .fin 0 := by
  refine ⟨fun dh dm ds dms h1 h2 h3 h4 b1 b2 b3 b4 =>
      ⟨timeToSecs_three h1 h2 h3 h4 b1 b2 b3 b4,
       timeToSecsC_three h1 h2 h3 h4 b1 b2 b3 b4⟩,
    fun dm ds dms h2 h3 h4 b2 b3 b4 =>
      ⟨timeToSecs_two h2 h3 h4 b2 b3 b4, timeToSecsC_two h2 h3 h4 b2 b3 b4⟩,
    fun ds dms h3 h4 b3 b4 => timeToSecsC_one h3 h4 b3 b4,
    ?_, ⟨?_, ?_⟩, ⟨?_, ?_⟩, ?_, by decide⟩
  · intro ds dms h3 h4 hc
    have hne0 : ¬ds ++ '.' :: dms = [] := by simp
    have hsplit : splitOnChar ':' (ds ++ '.' :: dms) = [ds ++ '.' :: dms] :=
      splitOnChar_of_not_mem (not_mem_append_cons hc (by decide)
        (not_mem_of_digits h4.2 (by decide)))
    simp [timeToSecs, hne0, hsplit]
  · have hd : "01:02:03.450".toList
        = "01".toList ++ ':' :: ("02".toList ++ ':' :: ("03".toList ++ '.' ::
          "450".toList)) := by decide
    rw [hd, timeToSecs_three ⟨by decide, by decide⟩ ⟨by decide, by decide⟩
      ⟨by decide, by decide⟩ ⟨by decide, by decide⟩ (by decide) (by decide)
      (by decide) (by decide)]
    norm_num [show digitsVal ['0', '1'] = 1 from rfl,
      show digitsVal ['0', '2'] = 2 from rfl,
      show digitsVal ['0', '3'] = 3 from rfl,
      show digitsVal ['4', '5', '0'] = 450 from rfl]
  · have hd : "01:02:03.450".toList
        = "01".toList ++ ':' :: ("02".toList ++ ':' :: ("03".toList ++ '.' ::
          "450".toList)) := by decide
    rw [hd, timeToSecsC_three ⟨by decide, by decide⟩ ⟨by decide, by decide⟩
      ⟨by decide, by decide⟩ ⟨by decide, by decide⟩ (by decide) (by decide)
      (by decide) (by decide)]
    norm_num [show digitsVal ['0', '1'] = 1 from rfl,
      show digitsVal ['0', '2'] = 2 from rfl,
      show digitsVal ['0', '3'] = 3 from rfl,
      show digitsVal ['4', '5', '0'] = 450 from rfl]
  · have hd : "02:03.450".toList
        = "02".toList ++ ':' :: ("03".toList ++ '.' :: "450".toList) := by
      decide
    rw [hd, timeToSecs_two ⟨by decide, by decide⟩ ⟨by decide, by decide⟩
      ⟨by decide, by decide⟩ (by decide) (by decide) (by decide)]
    norm_num [show digitsVal ['0', '2'] = 2 from rfl,
      show digitsVal ['0', '3'] = 3 from rfl,
      show digitsVal ['4', '5', '0'] = 450 from rfl]
  · have hd : "02:03.450".toList
        = "02".toList ++ ':' :: ("03".toList ++ '.' :: "450".toList) := by
      decide
    rw [hd, timeToSecsC_two ⟨by decide, by decide⟩ ⟨by decide, by decide⟩
      ⟨by decide, by decide⟩ (by decide) (by decide) (by decide)]
    norm_num [show digitsVal ['0', '2'] = 2 from rfl,
      show digitsVal ['0', '3'] = 3 from rfl,
      show digitsVal ['4', '5', '0'] = 450 from rfl]
  · have hd : "5.250".toList = "5".toList ++ '.' :: "250".toList := by decide
    rw [hd, timeToSecsC_one ⟨by decide, by decide⟩ ⟨by decide, by decide⟩
      (by decide) (by decide)]
    norm_num [show digitsVal ['5'] = 5 from rfl,
      show digitsVal ['2', '5', '0'] = 250 from rfl]

/-- Witness: the amended C3 group formulas at concrete digit groups, in both
parser variants. -/
theorem C3_groups_witness :
    timeToSecs ("7".toList ++ ':' :: ("20".toList ++ ':' :: ("30".toList ++
        '.' :: "5".toList)))
      = .fin ((digitsVal "7".toList : ℚ) * 3600 + (digitsVal "20".toList : ℚ)
          * 60 + (digitsVal "30".toList : ℚ)
          + (digitsVal "5".toList : ℚ) / 1000) ∧
    timeToSecsC ("7".toList ++ ':' :: ("20".toList ++ ':' :: ("30".toList ++
        '.' :: "5".toList)))
      = .fin ((digitsVal "7".toList : ℚ) * 3600 + (digitsVal "20".toList : ℚ)
          * 60 + (digitsVal "30".toList : ℚ)
          + (digitsVal "5".toList : ℚ) / 1000) ∧
    timeToSecs ("9".toList ++ '.' :: "250".toList) = .fin 0 :=
  ⟨(C3_groups_amended.1 _ _ _ _ ⟨by decide, by decide⟩ ⟨by decide, by decide⟩
      ⟨by decide, by decide⟩ ⟨by decide, by decide⟩ (by decide) (by decide)
      (by decide) (by decide)).1,
   (C3_groups_amended.1 _ _ _ _ ⟨by decide, by decide⟩ ⟨by decide, by decide⟩
      ⟨by decide, by decide⟩ ⟨by decide, by decide⟩ (by decide) (by decide)
      (by decide) (by decide)).2,
   C3_groups_amended.2.2.2.1 _ _ ⟨by decide, by decide⟩ ⟨by decide, by decide⟩
    (by decide)⟩

/-! ## Claim C4 — formatter behaviour on fewer than 3 colon groups -/

/-- C4, as stated, is false for the `exportUtils.ts` `toAssTime`: on the
spec's own example `"02:03.450"` it reads `parts[2]` of the colon split,
which is `undefined`, and throws a `TypeError` instead of promoting — it
returns no string at all (the claimed result would have been
`"0:02:03.45"`). -/
theorem C4_promotion_counterexample :
    toAssTimeP0 "02:03.450".toList = none := by decide

/-- C4 (amended): both formatters return `"0:00:00.00"` for empty input, and
the *client* `toAssTime` promotes 2-group and 1-group inputs (hours, or hours
and minutes, assumed zero) exactly as claimed — `"02:03.450"` formats to
`"0:02:03.45"`; the `exportUtils.ts` variant instead throws on every nonempty
input with fewer than 3 colon groups. -/
theorem C4_promotion_amended :
    toAssTimeP0 [] = some "0:00:00.00".toList ∧
    toAssTimeC [] = "0:00:00.00".toList ∧
    (∀ t : Str, ¬t = [] → (splitOnChar ':' t).length < 3 →
      toAssTimeP0 t = none) ∧
    (∀ dm ds dms : Str, DigitStr dm → DigitStr ds → DigitStr dms →
      toAssTimeC (dm ++ ':' :: (ds ++ '.' :: dms))
        = '0' :: ':' :: (dm ++ ':' :: (ds ++ '.' ::
            csField (padEndChar '0' 3 dms)))) ∧
    (∀ ds dms : Str, DigitStr ds → DigitStr dms →
      toAssTimeC (ds ++ '.' :: dms)
        = '0' :: ':' :: '0' :: '0' :: ':' :: (ds ++ '.' ::
            csField (padEndChar '0' 3 dms))) ∧
    toAssTimeC "02:03.450".toList = "0:02:03.45".toList := by
  refine ⟨by decide, by decide, ?_, ?_, ?_, ?_⟩
  · intro t hne hlen
    simp only [toAssTimeP0, hne, if_false]
    generalize hp : splitOnChar ':' t = parts at hlen
    rcases parts with _ | ⟨a, _ | ⟨b, _ | ⟨c, r⟩⟩⟩
    · rfl
    · rfl
    · rfl
    · simp at hlen
      omega
  · intro dm ds dms h2 h3 h4
    have hne0 : ¬dm ++ ':' :: (ds ++ '.' :: dms) = [] := by simp
    have hassoc : dm ++ ':' :: (ds ++ '.' :: dms)
        = (dm ++ ':' :: ds) ++ '.' :: dms := by simp
    have hdot : splitOnChar '.' (dm ++ ':' :: (ds ++ '.' :: dms))
        = [dm ++ ':' :: ds, dms] := by
      rw [hassoc, splitOnChar_append _
          (not_mem_append_cons (not_mem_of_digits h2.2 (by decide)) (by decide)
            (not_mem_of_digits h3.2 (by decide))),
        splitOnChar_of_not_mem (not_mem_of_digits h4.2 (by decide))]
    have hcolon : splitOnChar ':' (dm ++ ':' :: ds) = [dm, ds] := by
      rw [splitOnChar_append _ (not_mem_of_digits h2.2 (by decide)),
        splitOnChar_of_not_mem (not_mem_of_digits h3.2 (by decide))]
    have hidx : jsIdxOrStr [dm ++ ':' :: ds, dms] 1 "000".toList = dms := by
      simp [jsIdxOrStr, h4.1]
    simp only [toAssTimeC, hne0, if_false, hdot, hidx, List.getD_cons_zero,
      List.getD_cons_succ, hcolon, List.length_cons, List.length_nil]
    norm_num
  · intro ds dms h3 h4
    have hne0 : ¬ds ++ '.' :: dms = [] := by simp
    have hdot : splitOnChar '.' (ds ++ '.' :: dms) = [ds, dms] := by
      rw [splitOnChar_append _ (not_mem_of_digits h3.2 (by decide)),
        splitOnChar_of_not_mem (not_mem_of_digits h4.2 (by decide))]
    have hcolon : splitOnChar ':' ds = [ds] :=
      splitOnChar_of_not_mem (not_mem_of_digits h3.2 (by decide))
    have hidx : jsIdxOrStr [ds, dms] 1 "000".toList = dms := by
      simp [jsIdxOrStr, h4.1]
    simp only [toAssTimeC, hne0, if_false, hdot, hidx, List.getD_cons_zero,
      List.getD_cons_succ, hcolon, List.length_cons, List.length_nil]
    norm_num
  · have hd : "02:03.450".toList
        = "02".toList ++ ':' :: ("03".toList ++ '.' :: "450".toList) := by
      decide
    rw [hd]
    have key : toAssTimeC ("02".toList ++ ':' :: ("03".toList ++ '.' ::
        "450".toList)) = '0' :: ':' :: ("02".toList ++ ':' :: ("03".toList ++
          '.' :: csField (padEndChar '0' 3 "450".toList))) := by
      have hne0 : ¬"02".toList ++ ':' :: ("03".toList ++ '.' :: "450".toList)
          = [] := by simp
      have hdot : splitOnChar '.' ("02".toList ++ ':' :: ("03".toList ++ '.' ::
          "450".toList)) = ["02".toList ++ ':' :: "03".toList, "450".toList] := by
        decide
      have hcolon : splitOnChar ':' ("02".toList ++ ':' :: "03".toList)
          = ["02".toList, "03".toList] := by decide
      have hidx : jsIdxOrStr ["02".toList ++ ':' :: "03".toList, "450".toList] 1
          "000".toList = "450".toList := by decide
      simp only [toAssTimeC, hne0, if_false, hdot, hidx, List.getD_cons_zero,
        List.getD_cons_succ, hcolon, List.length_cons, List.length_nil]
      norm_num
    rw [key]
    have h450 : padEndChar '0' 3 "450".toList = padEndChar '0' 3 (pad3 450) := by
      decide
    rw [h450, csField_pad3 (by norm_num : (450 : ℕ) < 1000)]
    decide

/-- Witness: the amended C4 at concrete inputs. -/
theorem C4_promotion_witness :
    ¬("5".toList : Str) = [] ∧ (splitOnChar ':' "5".toList).length < 3 ∧
    toAssTimeP0 "5".toList = none :=
  ⟨by decide, by decide, C4_promotion_amended.2.2.1 _ (by decide) (by decide)⟩

/-! ## Claim C9 — the progress estimator -/

/-- Every tick report stays within `[0, 95]`, provided the accumulator starts
there and the random steps are nonnegative. -/
theorem tickReports_bounded (steps : List ℚ) :
    ∀ p : ℚ, 0 ≤ p → (∀ r ∈ steps, 0 ≤ r) →
    ∀ x ∈ tickReports p steps, 0 ≤ x ∧ x ≤ 95 := by
  induction steps with
  | nil => intro p _ _ x hx; simp [tickReports] at hx
  | cons r rs ih =>
    intro p hp hsteps x hx
    have hr : 0 ≤ r := hsteps r (by simp)
    simp only [tickReports] at hx
    by_cases hq : 95 ≤ p + r
    · rw [if_pos hq] at hx
      rw [List.mem_singleton] at hx
      subst hx
      norm_num
    · rw [if_neg hq] at hx
      rcases List.mem_cons.mp hx with hx | hx
      · subst hx
        constructor
        · linarith
        · linarith [not_le.mp hq]
      · exact ih (p + r) (by linarith) (fun y hy => hsteps y (by simp [hy])) x hx

/-- Consecutive tick reports grow, by less than 5 per tick. -/
theorem tickReports_chain (steps : List ℚ) :
    ∀ p : ℚ, p ≤ 95 → (∀ r ∈ steps, 0 ≤ r ∧ r < 5) →
    List.Chain' (fun a b => a ≤ b ∧ b < a + 5) (p :: tickReports p steps) := by
  induction steps with
  | nil => intro p _ _; simp [tickReports]
  | cons r rs ih =>
    intro p hp hsteps
    have hr := hsteps r (by simp)
    simp only [tickReports]
    by_cases hq : 95 ≤ p + r
    · rw [if_pos hq]
      refine List.chain'_cons.mpr ⟨⟨hp, by linarith⟩, ?_⟩
      simp
    · rw [if_neg hq]
      refine List.chain'_cons.mpr ⟨⟨by linarith, by linarith⟩, ?_⟩
      exact ih (p + r) (by linarith [not_le.mp hq])
        (fun y hy => hsteps y (by simp [hy]))

/-- C9: the progress estimator starts at 0, never reports above 95 (nor below
0) before the awaited task settles — each tick adding its random step in
`[0, 5)` — then reports 100 and passes the result through on success, or
reports 0 and re-raises the task's error on failure. -/
theorem C9_progress_estimator {E A : Type} (steps : List ℚ) (ok : Bool)
    (task : Except E A) (hsteps : ∀ r ∈ steps, 0 ≤ r ∧ r < 5) :
    (simulateProgressTrace steps ok).head? = some 0 ∧
    (∀ x ∈ 0 :: tickReports 0 steps, 0 ≤ x ∧ x ≤ 95) ∧
    List.Chain' (fun a b => a ≤ b ∧ b < a + 5) (0 :: tickReports 0 steps) ∧
    (simulateProgressTrace steps ok).getLast?
      = some (if ok then 100 else 0) ∧
    simulateProgressResult task = task := by
  refine ⟨rfl, ?_, tickReports_chain steps 0 (by norm_num) hsteps, ?_, rfl⟩
  · intro x hx
    rcases List.mem_cons.mp hx with hx | hx
    · subst hx; norm_num
    · exact tickReports_bounded steps 0 le_rfl (fun r hr => (hsteps r hr).1) x hx
  · show ((0 : ℚ) :: (tickReports 0 steps ++ [if ok then 100 else 0])).getLast?
      = some (if ok then 100 else 0)
    rw [← List.cons_append, List.getLast?_concat]

/-- Witness: the estimator trace for two ticks of 3 and 4 before a failure. -/
theorem C9_progress_witness :
    (∀ r ∈ [(3 : ℚ), 4], 0 ≤ r ∧ r < 5) ∧
    ((simulateProgressTrace [(3 : ℚ), 4] false).head? = some 0 ∧
      (∀ x ∈ 0 :: tickReports 0 [(3 : ℚ), 4], 0 ≤ x ∧ x ≤ 95) ∧
      List.Chain' (fun a b => a ≤ b ∧ b < a + 5)
        (0 :: tickReports 0 [(3 : ℚ), 4]) ∧
      (simulateProgressTrace [(3 : ℚ), 4] false).getLast?
        = some (if (false : Bool) then 100 else 0) ∧
      simulateProgressResult (Except.error "boom" : Except String Nat)
        = Except.error "boom") := by
  have hsteps : ∀ r ∈ [(3 : ℚ), 4], 0 ≤ r ∧ r < 5 := by
    intro r hr
    rcases List.mem_cons.mp hr with h | h
    · subst h; norm_num
    · rcases List.mem_cons.mp h with h | h
      · subst h; norm_num
      · simp at h
  exact ⟨hsteps, C9_progress_estimator [(3 : ℚ), 4] false
    (Except.error "boom" : Except String Nat) hsteps⟩

/-! ## Claim C10 — placeholder substitution for the preview -/

/-- Every anchored preview match is nonempty (it starts with `[Image:`). -/
theorem matchPreviewAt_pos :
    ∀ s len x, matchPreviewAt s = some (len, x) → 0 < len := by
  intro s len x h
  simp only [matchPreviewAt] at h
  cases hp : ciPrefix "[image:".toList s with
  | none =>
    simp only [hp] at h
    exact Option.noConfusion h
  | some r0 =>
    simp only [hp] at h
    cases hw : wsStarLoop (r0.takeWhile isWsCh).length r0 with
    | none =>
      simp only [hw] at h
      exact Option.noConfusion h
    | some q =>
      obtain ⟨k, dlen, alen, tc⟩ := q
      simp only [hw, Option.some.injEq, Prod.mk.injEq] at h
      omega

/-- A successful scan decomposes the input and strictly shrinks the tail. -/
theorem scanWith_decomp {α : Type} {matchAt : Str → Option (Nat × α)}
    (hpos : ∀ s len x, matchAt s = some (len, x) → 0 < len) :
    ∀ s pre m x after, scanWith matchAt s = some (pre, m, x, after) →
      s = pre ++ m ++ after ∧ after.length < s.length := by
  intro s
  induction s with
  | nil => intro pre m x after h; simp [scanWith] at h
  | cons c cs ih =>
    intro pre m x after h
    simp only [scanWith] at h
    cases hm : matchAt (c :: cs) with
    | some p =>
      obtain ⟨len, x0⟩ := p
      rw [hm] at h
      simp only [Option.some.injEq, Prod.mk.injEq] at h
      obtain ⟨hpre, hm2, hx, hafter⟩ := h
      subst hpre
      subst hm2
      subst hx
      subst hafter
      refine ⟨by simp [List.take_append_drop], ?_⟩
      have hl := hpos _ _ _ hm
      rw [List.length_drop]
      simp only [List.length_cons]
      omega
    | none =>
      rw [hm] at h
      cases hs : scanWith matchAt cs with
      | none => rw [hs] at h; simp at h
      | some q =>
        obtain ⟨pre2, m2, x2, after2⟩ := q
        rw [hs] at h
        simp only [Option.some.injEq, Prod.mk.injEq] at h
        obtain ⟨hpre, hm2, hx, hafter⟩ := h
        subst hpre
        subst hm2
        subst hx
        subst hafter
        obtain ⟨heq, hlt⟩ := ih _ _ _ _ hs
        refine ⟨by simp [heq], ?_⟩
        simp only [List.length_cons]
        omega

/-- If every matched timecode misses the map, the replace loop is the
identity. -/
theorem previewReplaceLoop_id (shots : Str → Option Str) :
    ∀ fuel s, (∀ t ∈ previewTimecodesLoop fuel s, shots t = none) →
      previewReplaceLoop fuel s shots = s := by
  intro fuel
  induction fuel with
  | zero => intro s _; rfl
  | succ fuel ih =>
    intro s habs
    simp only [previewReplaceLoop]
    cases hs : scanPreview s with
    | none => rfl
    | some q =>
      obtain ⟨pre, m, ⟨d, t⟩, after⟩ := q
      have habs' : ∀ t' ∈ t :: previewTimecodesLoop fuel after,
          shots t' = none := by
        intro t' ht'
        apply habs
        simp only [previewTimecodesLoop, hs]
        exact ht'
      have ht : shots t = none := habs' t (by simp)
      have hafter := ih after (fun t' h' => habs' t' (by simp [h']))
      rw [(scanWith_decomp matchPreviewAt_pos s pre m (d, t) after hs).1]
      simp [ht, hafter]

/-- The replace loop is fuel-invariant from `s.length` up (every match
strictly shrinks the remaining text). -/
theorem previewReplaceLoop_fuel (shots : Str → Option Str) :
    ∀ fuel1 fuel2 s, s.length ≤ fuel1 → s.length ≤ fuel2 →
      previewReplaceLoop fuel1 s shots = previewReplaceLoop fuel2 s shots := by
  intro fuel1
  induction fuel1 with
  | zero =>
    intro fuel2 s h1 _
    have hs : s = [] := List.length_eq_zero.mp (Nat.le_zero.mp h1)
    subst hs
    cases fuel2 with
    | zero => rfl
    | succ g => rfl
  | succ f ih =>
    intro fuel2 s h1 h2
    cases fuel2 with
    | zero =>
      have hs : s = [] := List.length_eq_zero.mp (Nat.le_zero.mp h2)
      subst hs
      rfl
    | succ g =>
      cases hs : scanPreview s with
      | none => simp only [previewReplaceLoop, hs]
      | some q =>
        obtain ⟨pre, m, ⟨d, t⟩, after⟩ := q
        have hlt := (scanWith_decomp matchPreviewAt_pos s pre m (d, t)
          after hs).2
        simp only [previewReplaceLoop, hs]
        rw [ih g after (by omega) (by omega)]

/-- C10: the frame effect of `processContentForPreview`, for every content
string and screenshots map.  A document with no placeholder match is returned
unchanged.  A document with a leftmost match decomposes as
`pre ++ match ++ after`: the non-matching prefix is kept verbatim, the
matched placeholder becomes the markdown inline-image embedding of its
screenshot exactly when its captured timecode is a key of the map — and is
kept verbatim otherwise — and the rest of the document is processed the same
way.  In particular a document none of whose matched timecodes is in the map
(so, any document under the empty map) is returned unchanged. -/
theorem C10_preview_substitution :
    (∀ (content : Str) (shots : Str → Option Str), scanPreview content = none →
      processContentForPreview content shots = content) ∧
    (∀ (content : Str) (shots : Str → Option Str) (pre m d t after : Str),
      scanPreview content = some (pre, m, (d, t), after) →
      content = pre ++ m ++ after ∧
      processContentForPreview content shots
        = pre ++ (match shots t with
            | some shot => '!' :: '[' :: (d ++ ']' :: '(' ::
                ("data:image/png;base64,".toList ++ shot ++ [')']))
            | none => m)
          ++ processContentForPreview after shots) ∧
    (∀ (content : Str) (shots : Str → Option Str),
      (∀ t ∈ previewTimecodes content, shots t = none) →
      processContentForPreview content shots = content) ∧
    (∀ content : Str,
      processContentForPreview content (fun _ => none) = content) ∧
    processContentForPreview
        "a [Image: one at 0:00:01] b [Image: two at 0:00:02] c".toList
        (fun t => if t = "0:00:01".toList then some "S1".toList else none)
      = "a ![one](data:image/png;base64,S1) b [Image: two at 0:00:02] c".toList
      := by
  refine ⟨?_, ?_, ?_, ?_, by decide⟩
  · intro content shots hscan
    show previewReplaceLoop content.length content shots = content
    cases hl : content.length with
    | zero => rfl
    | succ n => simp [previewReplaceLoop, hscan]
  · intro content shots pre m d t after hscan
    obtain ⟨hdec, hlt⟩ := scanWith_decomp matchPreviewAt_pos content pre m
      (d, t) after hscan
    refine ⟨hdec, ?_⟩
    obtain ⟨n, hn⟩ : ∃ n, content.length = n + 1 := by
      cases content with
      | nil => exact absurd hscan (by simp [scanPreview, scanWith])
      | cons c cs => exact ⟨cs.length, rfl⟩
    show previewReplaceLoop content.length content shots = _
    rw [hn]
    simp only [previewReplaceLoop, hscan]
    rw [previewReplaceLoop_fuel shots n after.length after (by omega) le_rfl]
    rfl
  · intro content shots habs
    exact previewReplaceLoop_id shots content.length content habs
  · intro content
    exact previewReplaceLoop_id _ content.length content (fun t _ => rfl)

/-- Witness: the C10 frame effect at a concrete document — the present-key
placeholder is replaced by its markdown image, and the same document under
the empty map is returned unchanged. -/
theorem C10_preview_witness :
    scanPreview "x [Image: gear at 0:00:05] y".toList
      = some ("x ".toList, "[Image: gear at 0:00:05]".toList,
          ("gear".toList, "0:00:05".toList), " y".toList) ∧
    (("x [Image: gear at 0:00:05] y".toList : Str)
        = "x ".toList ++ "[Image: gear at 0:00:05]".toList ++ " y".toList ∧
      processContentForPreview "x [Image: gear at 0:00:05] y".toList
          (fun _ => some "B64".toList)
        = "x ".toList ++ ('!' :: '[' :: ("gear".toList ++ ']' :: '(' ::
            ("data:image/png;base64,".toList ++ "B64".toList ++ [')'])))
          ++ processContentForPreview " y".toList
              (fun _ => some "B64".toList)) ∧
    processContentForPreview "x [Image: gear at 0:00:05] y".toList
      (fun _ => none) = "x [Image: gear at 0:00:05] y".toList := by
  have hscan : scanPreview "x [Image: gear at 0:00:05] y".toList
      = some ("x ".toList, "[Image: gear at 0:00:05]".toList,
          ("gear".toList, "0:00:05".toList), " y".toList) := by decide
  exact ⟨hscan,
    C10_preview_substitution.2.1 _ (fun _ => some "B64".toList) _ _ _ _ _
      hscan,
    C10_preview_substitution.2.2.2.1 _⟩

/-! ## Claim C5 — partial-failure policy of the archive exporters -/

/-- C5, as stated, is false for the `App.tsx` `handleExportZip`: its single
`Promise.all` has no per-item `catch`, so one failing frame extraction (for
the only placeholder, with compression succeeding) rejects the batch and the
whole export aborts with an error. -/
theorem C5_partial_failure_counterexample :
    (matchAllZip "[Image: a at 0:00:01.000]".toList).length = 1 ∧
    handleExportZipA "[Image: a at 0:00:01.000]".toList true "guide".toList
      (fun _ => none) true = .failed := by
  exact ⟨by decide, by decide⟩

/-- C5 (amended): in the *client* `handleExportZip`, every frame extraction
is caught per item, so the export never aborts when compression succeeds
(a failed placeholder's marker is left unresolved in `guide.md`), and an
aborted export implies the compression step failed; the `App.tsx` variant
instead aborts on any single extraction failure (see the counterexample). -/
theorem C5_partial_failure_amended :
    (∀ content : Str, ∀ videoUrl : Bool, ∀ fmt : Str,
      ∀ extract : JSNum → Option Nat, ∀ comp : Bool,
      handleExportZipB content videoUrl fmt extract comp = .failed →
      comp = false) ∧
    (∀ content : Str, ∀ videoUrl : Bool, ∀ fmt : Str,
      ∀ extract : JSNum → Option Nat,
      ¬handleExportZipB content videoUrl fmt extract true = .failed) ∧
    handleExportZipB "[Image: a at 0:00:01.000]".toList true "guide".toList
        (fun _ => none) true
      = .ok [("images/".toList, .folder),
          ("guide.md".toList, .text "[Image: a at 0:00:01.000]".toList)] ∧
    handleExportZipB "[Image: a at 0:00:01.000]".toList true "guide".toList
        (fun _ => none) false = .failed := by
  have hnot : ∀ (content : Str) (videoUrl : Bool) (fmt : Str)
      (extract : JSNum → Option Nat) (comp : Bool),
      (content = [] ∨ videoUrl = false ∨ fmt = "diagram".toList) →
      handleExportZipB content videoUrl fmt extract comp = .notRun := by
    intro content videoUrl fmt extract comp hg
    unfold handleExportZipB
    exact if_pos hg
  have hok : ∀ (content : Str) (videoUrl : Bool) (fmt : Str)
      (extract : JSNum → Option Nat),
      ¬(content = [] ∨ videoUrl = false ∨ fmt = "diagram".toList) →
      ∃ entries, handleExportZipB content videoUrl fmt extract true
        = .ok entries := by
    intro content videoUrl fmt extract hg
    unfold handleExportZipB
    rw [if_neg hg]
    exact ⟨_, rfl⟩
  refine ⟨?_, ?_, by decide, by decide⟩
  · intro content videoUrl fmt extract comp h
    by_cases hg : content = [] ∨ videoUrl = false ∨ fmt = "diagram".toList
    · rw [hnot content videoUrl fmt extract comp hg] at h
      exact ExportOutcome.noConfusion h
    · cases comp
      · rfl
      · obtain ⟨entries, he⟩ := hok content videoUrl fmt extract hg
        rw [he] at h
        exact ExportOutcome.noConfusion h
  · intro content videoUrl fmt extract h
    by_cases hg : content = [] ∨ videoUrl = false ∨ fmt = "diagram".toList
    · rw [hnot content videoUrl fmt extract true hg] at h
      exact ExportOutcome.noConfusion h
    · obtain ⟨entries, he⟩ := hok content videoUrl fmt extract hg
      rw [he] at h
      exact ExportOutcome.noConfusion h

/-- Witness: the only way the client exporter fails is a failed compression. -/
theorem C5_partial_failure_witness :
    handleExportZipB "[Image: a at 0:00:01.000]".toList true "guide".toList
      (fun _ => none) false = .failed ∧ (false : Bool) = false :=
  ⟨by decide,
   C5_partial_failure_amended.1 "[Image: a at 0:00:01.000]".toList true
     "guide".toList (fun _ => none) false (by decide)⟩

/-! ## Claim C6 — subtitle export: drop, merge, sort, one line per event -/

/-- `lexLe` is transitive. -/
theorem lexLe_trans (a : Str) : ∀ b c : Str, lexLe a b = true →
    lexLe b c = true → lexLe a c = true := by
  induction a with
  | nil => intro b c _ _; rfl
  | cons x xs ih =>
    intro b c h1 h2
    cases b with
    | nil => exact absurd h1 (by simp [lexLe])
    | cons y ys =>
      cases c with
      | nil => exact absurd h2 (by simp [lexLe])
      | cons z zs =>
        by_cases hxy : x < y
        · by_cases hyz : y < z
          · simp [lexLe, lt_trans hxy hyz]
          · simp only [lexLe, if_neg hyz] at h2
            by_cases hyz2 : y = z
            · subst hyz2; simp [lexLe, hxy]
            · simp [if_neg hyz2] at h2
        · simp only [lexLe, if_neg hxy] at h1
          by_cases hxy2 : x = y
          · subst hxy2
            simp only [if_pos rfl] at h1
            by_cases hxz : x < z
            · simp [lexLe, hxz]
            · simp only [lexLe, if_neg hxz] at h2 ⊢
              by_cases hxz2 : x = z
              · subst hxz2
                simp only [if_pos rfl] at h2 ⊢
                exact ih ys zs h1 h2
              · simp [if_neg hxz2] at h2
          · simp [if_neg hxy2] at h1

/-- `lexLe` is total (in the boolean form `List.sorted_mergeSort` expects). -/
theorem lexLe_total_or (a : Str) : ∀ b : Str, (lexLe a b || lexLe b a) = true := by
  induction a with
  | nil => intro b; rfl
  | cons x xs ih =>
    intro b
    cases b with
    | nil => rfl
    | cons y ys =>
      rcases lt_trichotomy x y with hlt | heq | hgt
      · simp [lexLe, hlt]
      · subst heq
        simpa [lexLe, lt_self_iff_false] using ih ys
      · simp [lexLe, hgt]

/-- C6 counterexample: the `exportUtils.ts` variant does not emit one Dialogue
line per kept event — a kept event (both timecodes present) whose start time
has fewer than three colon groups makes its `toAssTime` throw, so the whole
export throws instead of emitting any line. -/
theorem C6_subtitle_counterexample :
    (keptEvents [⟨"Alice".toList, "02:03.450".toList, "00:00:05.000".toList,
        "hi".toList⟩] []).length = 1 ∧
    exportToAssP0Events [⟨"Alice".toList, "02:03.450".toList,
        "00:00:05.000".toList, "hi".toList⟩] [] = none := by
  refine ⟨by decide, ?_⟩
  rw [exportToAssP0Events, eventLinesP0, allEvents,
    show keptEvents [⟨"Alice".toList, "02:03.450".toList,
        "00:00:05.000".toList, "hi".toList⟩] []
      = [⟨"02:03.450".toList, "00:00:05.000".toList, "hi".toList,
          "Alice".toList⟩] from rfl,
    List.mergeSort_singleton]
  rfl

/-- C6 (amended, client variant): every event the client exporter keeps has
both timecodes; the sorted event list is a permutation of the merged
speaker-attributed transcript events and narrator-attributed caption events
with both timecodes present; it is ordered by lexicographic comparison of
`startTime`; and the exporter emits exactly one Dialogue line per kept event
in that order. -/
theorem C6_subtitle_amended (ts : List DiarizedSegment) (cs : List Caption) :
    (∀ e ∈ allEvents ts cs, ¬e.startTime = [] ∧ ¬e.endTime = []) ∧
    (allEvents ts cs).Perm ((transcriptEvents ts ++ captionEvents cs).filter
      (fun e => ¬e.startTime = [] ∧ ¬e.endTime = [])) ∧
    List.Pairwise (fun a b => lexLe a.startTime b.startTime = true)
      (allEvents ts cs) ∧
    eventLines ts cs = (allEvents ts cs).map dialogueLine := by
  have hperm : (allEvents ts cs).Perm (keptEvents ts cs) :=
    List.mergeSort_perm _ _
  refine ⟨?_, hperm, ?_, rfl⟩
  · intro e he
    have hmem : e ∈ keptEvents ts cs := hperm.mem_iff.mp he
    have hp := List.of_mem_filter hmem
    simpa using hp
  · exact List.sorted_mergeSort
      (fun a b c hab hbc => lexLe_trans a.startTime b.startTime c.startTime hab hbc)
      (fun a b => lexLe_total_or a.startTime b.startTime)
      (keptEvents ts cs)

/-! ## Claim C8 — the JSON snapshot round-trip -/

theorem skipJsWs_nl (r : Str) : skipJsWs ('\n' :: r) = skipJsWs r := rfl

theorem skipJsWs_ind (k : Nat) (r : Str) : skipJsWs (ind k ++ r) = skipJsWs r := by
  induction k with
  | zero => rfl
  | succ n ihn =>
    show skipJsWs (List.replicate (n + 1) ' ' ++ r) = _
    rw [List.replicate_succ]
    exact ihn

theorem skipJsWs_not_ws {c : Char} (h : isJsonWs c = false) (r : Str) :
    skipJsWs (c :: r) = c :: r := by
  simp [skipJsWs, List.dropWhile_cons, h]

theorem renderJ_head (v : Json) (i : Nat) : ∃ c cr, renderJ v i = c :: cr ∧
    isJsonWs c = false ∧ ¬c = ']' ∧ ¬c = '}' ∧ ¬c = ',' := by
  rcases v with _ | b | s | (_ | ⟨e, es⟩) | (_ | ⟨m, ms⟩)
  · exact ⟨'n', _, rfl, by decide, by decide, by decide, by decide⟩
  · cases b
    · exact ⟨'f', _, rfl, by decide, by decide, by decide, by decide⟩
    · exact ⟨'t', _, rfl, by decide, by decide, by decide, by decide⟩
  · exact ⟨'"', _, rfl, by decide, by decide, by decide, by decide⟩
  · exact ⟨'[', _, rfl, by decide, by decide, by decide, by decide⟩
  · exact ⟨'[', _, rfl, by decide, by decide, by decide, by decide⟩
  · exact ⟨'{', _, rfl, by decide, by decide, by decide, by decide⟩
  · exact ⟨'{', _, rfl, by decide, by decide, by decide, by decide⟩

theorem skipJsWs_renderJ (v : Json) (i : Nat) (rest : Str) :
    skipJsWs (renderJ v i ++ rest) = renderJ v i ++ rest := by
  obtain ⟨c, cr, hce, hw, -, -, -⟩ := renderJ_head v i
  rw [hce, List.cons_append, skipJsWs_not_ws hw]

theorem hexVal_hexCh (k : Nat) (h : k < 16) : hexVal (hexCh k) = some k := by
  interval_cases k <;> rfl

theorem parseJStrAux_plain {c : Char} (h1 : ¬c = '"') (h2 : ¬c = '\\')
    (acc t : Str) : parseJStrAux acc (c :: t) = parseJStrAux (c :: acc) t := by
  rw [parseJStrAux.eq_def]
  split
  · next heq => exact absurd (List.head_eq_of_cons_eq heq) h1
  · next heq => exact absurd (List.head_eq_of_cons_eq heq) h2
  · next heq => exact absurd (List.head_eq_of_cons_eq heq) h2
  · next heq =>
      obtain ⟨h3, h4⟩ := List.cons_eq_cons.mp heq
      rw [h3, h4]
  · next heq => exact absurd heq (by simp)

theorem parseJStrAux_round (s : Str) : ∀ acc rest,
    parseJStrAux acc ((s.map escJsonCh).flatten ++ '"' :: rest)
      = some (acc.reverse ++ s, rest) := by
  induction s with
  | nil => intro acc rest; simp [parseJStrAux]
  | cons c cs ih =>
    intro acc rest
    rw [List.map_cons, List.flatten_cons, List.append_assoc]
    by_cases h1 : c = '"'
    · subst h1
      rw [show escJsonCh '"' = ['\\', '"'] from rfl, List.cons_append,
        List.cons_append, List.nil_append,
        show ∀ t, parseJStrAux acc ('\\' :: '"' :: t)
          = parseJStrAux ('"' :: acc) t from fun t => rfl, ih]
      simp
    · by_cases h2 : c = '\\'
      · subst h2
        rw [show escJsonCh '\\' = ['\\', '\\'] from rfl, List.cons_append,
          List.cons_append, List.nil_append,
          show ∀ t, parseJStrAux acc ('\\' :: '\\' :: t)
            = parseJStrAux ('\\' :: acc) t from fun t => rfl, ih]
        simp
      · by_cases h3 : c = '\n'
        · subst h3
          rw [show escJsonCh '\n' = ['\\', 'n'] from rfl, List.cons_append,
            List.cons_append, List.nil_append,
            show ∀ t, parseJStrAux acc ('\\' :: 'n' :: t)
              = parseJStrAux ('\n' :: acc) t from fun t => rfl, ih]
          simp
        · by_cases h4 : c = '\r'
          · subst h4
            rw [show escJsonCh '\r' = ['\\', 'r'] from rfl, List.cons_append,
              List.cons_append, List.nil_append,
              show ∀ t, parseJStrAux acc ('\\' :: 'r' :: t)
                = parseJStrAux ('\r' :: acc) t from fun t => rfl, ih]
            simp
          · by_cases h5 : c = '\t'
            · subst h5
              rw [show escJsonCh '\t' = ['\\', 't'] from rfl, List.cons_append,
                List.cons_append, List.nil_append,
                show ∀ t, parseJStrAux acc ('\\' :: 't' :: t)
                  = parseJStrAux ('\t' :: acc) t from fun t => rfl, ih]
              simp
            · by_cases h6 : c = '\x08'
              · subst h6
                rw [show escJsonCh '\x08' = ['\\', 'b'] from rfl, List.cons_append,
                  List.cons_append, List.nil_append,
                  show ∀ t, parseJStrAux acc ('\\' :: 'b' :: t)
                    = parseJStrAux ('\x08' :: acc) t from fun t => rfl, ih]
                simp
              · by_cases h7 : c = '\x0c'
                · subst h7
                  rw [show escJsonCh '\x0c' = ['\\', 'f'] from rfl, List.cons_append,
                    List.cons_append, List.nil_append,
                    show ∀ t, parseJStrAux acc ('\\' :: 'f' :: t)
                      = parseJStrAux ('\x0c' :: acc) t from fun t => rfl, ih]
                  simp
                · by_cases h8 : c.toNat < 32
                  · have hesc : escJsonCh c = ['\\', 'u', '0', '0',
                        hexCh (c.toNat / 16), hexCh (c.toNat % 16)] := by
                      simp only [escJsonCh, if_neg h1, if_neg h2, if_neg h3,
                        if_neg h4, if_neg h5, if_neg h6, if_neg h7, if_pos h8]
                    rw [hesc]
                    simp only [List.cons_append, List.nil_append]
                    rw [show ∀ a b cc d t, parseJStrAux acc
                        ('\\' :: 'u' :: a :: b :: cc :: d :: t)
                        = match hexVal a, hexVal b, hexVal cc, hexVal d with
                          | some va, some vb, some vc, some vd =>
                            parseJStrAux (Char.ofNat
                              (((va * 16 + vb) * 16 + vc) * 16 + vd) :: acc) t
                          | _, _, _, _ => none
                      from fun a b cc d t => rfl]
                    rw [show hexVal '0' = some 0 from rfl,
                      hexVal_hexCh (c.toNat / 16) (by omega),
                      hexVal_hexCh (c.toNat % 16) (by omega)]
                    simp only
                    rw [show ((0 * 16 + 0) * 16 + c.toNat / 16) * 16 + c.toNat % 16
                        = c.toNat from by omega, Char.ofNat_toNat, ih]
                    simp
                  · have hesc : escJsonCh c = [c] := by
                      simp only [escJsonCh, if_neg h1, if_neg h2, if_neg h3,
                        if_neg h4, if_neg h5, if_neg h6, if_neg h7, if_neg h8]
                    rw [hesc, List.singleton_append,
                      parseJStrAux_plain h1 h2, ih]
                    simp


theorem skipJsWs_jstr (k : Str) (z : Str) :
    skipJsWs (jstr k ++ z) = jstr k ++ z := by
  rw [jstr, List.cons_append, skipJsWs_not_ws (by decide)]

theorem skipJsWs_items (e2 : Json) (es' : List Json) (j i0 : Nat) (rest : Str) :
    skipJsWs ('\n' :: (renderItems (e2 :: es') j ++ '\n' :: (ind i0 ++ ']' :: rest)))
      = renderJ e2 j ++ itemsTail es' j i0 rest := by
  have h : renderItems (e2 :: es') j ++ '\n' :: (ind i0 ++ ']' :: rest)
      = ind j ++ (renderJ e2 j ++ itemsTail es' j i0 rest) := by
    cases es' <;> simp [renderItems, itemsTail, List.append_assoc]
  rw [skipJsWs_nl, h, skipJsWs_ind, skipJsWs_renderJ]

theorem skipJsWs_fields (k2 : Str) (v2 : Json) (ms' : List (Str × Json))
    (j i0 : Nat) (rest : Str) :
    skipJsWs ('\n' :: (renderFields ((k2, v2) :: ms') j ++ '\n' ::
        (ind i0 ++ '}' :: rest)))
      = '"' :: ((k2.map escJsonCh).flatten ++ '"' ::
          (':' :: ' ' :: (renderJ v2 j ++ membersTail ms' j i0 rest))) := by
  have h : renderFields ((k2, v2) :: ms') j ++ '\n' :: (ind i0 ++ '}' :: rest)
      = ind j ++ (jstr k2 ++ ':' :: ' ' ::
          (renderJ v2 j ++ membersTail ms' j i0 rest)) := by
    cases ms' <;> simp [renderFields, membersTail, List.append_assoc]
  rw [skipJsWs_nl, h, skipJsWs_ind, skipJsWs_jstr, jstr]
  simp [List.append_assoc]


theorem parse_render_fuel : ∀ fuel : Nat,
    (∀ (v : Json) (i : Nat) (rest s : Str), skipJsWs s = renderJ v i ++ rest →
      fuelJ v ≤ fuel → parseJVal fuel s = some (v, rest)) ∧
    (∀ (e : Json) (es : List Json) (j i0 : Nat) (rest s : Str),
      skipJsWs s = renderJ e j ++ itemsTail es j i0 rest →
      fuelArr (e :: es) ≤ fuel → parseJElems fuel s = some (e :: es, rest)) ∧
    (∀ (k : Str) (v : Json) (ms : List (Str × Json)) (j i0 : Nat) (rest s : Str),
      skipJsWs s = jstr k ++ ':' :: ' ' :: (renderJ v j ++ membersTail ms j i0 rest) →
      fuelObj ((k, v) :: ms) ≤ fuel → parseJMembers fuel s = some ((k, v) :: ms, rest)) := by
  intro fuel
  induction fuel with
  | zero =>
    refine ⟨?_, ?_, ?_⟩
    · intro v i rest s _ hf
      rcases v with _ | b | s0 | es | ms <;> (simp only [fuelJ] at hf; omega)
    · intro e es j i0 rest s _ hf
      simp only [fuelArr] at hf; omega
    · intro k v ms j i0 rest s _ hf
      simp only [fuelObj] at hf; omega
  | succ f ih =>
    obtain ⟨ihP, ihQ, ihM⟩ := ih
    refine ⟨?_, ?_, ?_⟩
    · intro v i rest s hs hf
      rcases v with _ | b | s0 | es | ms
      · have hs' : skipJsWs s = 'n' :: 'u' :: 'l' :: 'l' :: rest := by rw [hs]; rfl
        simp [parseJVal, hs']
      · cases b
        · have hs' : skipJsWs s = 'f' :: 'a' :: 'l' :: 's' :: 'e' :: rest := by
            rw [hs]; rfl
          simp [parseJVal, hs']
        · have hs' : skipJsWs s = 't' :: 'r' :: 'u' :: 'e' :: rest := by
            rw [hs]; rfl
          simp [parseJVal, hs']
      · have hs' : skipJsWs s
            = '"' :: ((s0.map escJsonCh).flatten ++ '"' :: rest) := by
          rw [hs]; simp [renderJ, jstr, List.append_assoc]
        simp [parseJVal, hs', parseJStrAux_round]
      · cases es with
        | nil =>
          have hs' : skipJsWs s = '[' :: ']' :: rest := by rw [hs]; rfl
          have hsk : skipJsWs (']' :: rest) = ']' :: rest :=
            skipJsWs_not_ws (by decide) rest
          simp [parseJVal, hs', hsk]
        | cons e es' =>
          have hs' : skipJsWs s = '[' :: '\n' ::
              (renderItems (e :: es') (i + 2) ++ '\n' :: (ind i ++ ']' :: rest)) := by
            rw [hs]; simp [renderJ, List.append_assoc]
          simp only [fuelJ] at hf
          simp only [parseJVal, hs', skipJsWs_items]
          obtain ⟨c, cr, hce, hw, hc1, hc2, hc3⟩ := renderJ_head e (i + 2)
          rw [hce, List.cons_append]
          split
          · next heq => exact absurd (List.head_eq_of_cons_eq heq) hc1
          · rw [← List.cons_append, ← hce,
              ihQ e es' (i + 2) i rest _ (skipJsWs_renderJ e (i + 2) _) (by omega)]
            rfl
      · cases ms with
        | nil =>
          have hs' : skipJsWs s = '{' :: '}' :: rest := by rw [hs]; rfl
          have hsk : skipJsWs ('}' :: rest) = '}' :: rest :=
            skipJsWs_not_ws (by decide) rest
          simp [parseJVal, hs', hsk]
        | cons m ms' =>
          obtain ⟨k2, v2⟩ := m
          have hs' : skipJsWs s = '{' :: '\n' ::
              (renderFields ((k2, v2) :: ms') (i + 2) ++ '\n' ::
                (ind i ++ '}' :: rest)) := by
            rw [hs]; simp [renderJ, List.append_assoc]
          simp only [fuelJ] at hf
          have hm : parseJMembers f ('"' :: ((k2.map escJsonCh).flatten ++ '"' ::
              (':' :: ' ' :: (renderJ v2 (i + 2) ++
                membersTail ms' (i + 2) i rest)))) = some ((k2, v2) :: ms', rest) := by
            refine ihM k2 v2 ms' (i + 2) i rest _ ?_ (by omega)
            rw [skipJsWs_not_ws (by decide), jstr]
            simp [List.append_assoc]
          simp [parseJVal, hs', skipJsWs_fields, hm]
    · intro e es j i0 rest s hs hf
      simp only [fuelArr] at hf
      have hPe : parseJVal f s = some (e, itemsTail es j i0 rest) :=
        ihP e j (itemsTail es j i0 rest) s hs (by omega)
      cases es with
      | nil =>
        have hsk : skipJsWs (itemsTail ([] : List Json) j i0 rest) = ']' :: rest := by
          rw [show itemsTail ([] : List Json) j i0 rest
              = '\n' :: (ind i0 ++ ']' :: rest) from rfl,
            skipJsWs_nl, skipJsWs_ind, skipJsWs_not_ws (by decide)]
        simp [parseJElems, hPe, hsk]
      | cons e2 es' =>
        have hsk : skipJsWs (itemsTail (e2 :: es') j i0 rest)
            = ',' :: '\n' :: (renderItems (e2 :: es') j ++ '\n' ::
                (ind i0 ++ ']' :: rest)) := by
          rw [show itemsTail (e2 :: es') j i0 rest = ',' :: '\n' ::
              (renderItems (e2 :: es') j ++ '\n' :: (ind i0 ++ ']' :: rest)) from rfl,
            skipJsWs_not_ws (by decide)]
        have hrec : parseJElems f ('\n' :: (renderItems (e2 :: es') j ++ '\n' ::
            (ind i0 ++ ']' :: rest))) = some (e2 :: es', rest) := by
          refine ihQ e2 es' j i0 rest _ (skipJsWs_items e2 es' j i0 rest) ?_
          simp only [fuelArr] at hf ⊢
          omega
        simp [parseJElems, hPe, hsk, hrec]
    · intro k v ms j i0 rest s hs hf
      simp only [fuelObj] at hf
      have hs' : skipJsWs s = '"' :: ((k.map escJsonCh).flatten ++ '"' ::
          (':' :: ' ' :: (renderJ v j ++ membersTail ms j i0 rest))) := by
        rw [hs, jstr]; simp [List.append_assoc]
      have hsk1 : skipJsWs (':' :: ' ' :: (renderJ v j ++ membersTail ms j i0 rest))
          = ':' :: ' ' :: (renderJ v j ++ membersTail ms j i0 rest) :=
        skipJsWs_not_ws (by decide) _
      have hPv : parseJVal f (' ' :: (renderJ v j ++ membersTail ms j i0 rest))
          = some (v, membersTail ms j i0 rest) := by
        refine ihP v j (membersTail ms j i0 rest) _ ?_ (by omega)
        rw [show skipJsWs (' ' :: (renderJ v j ++ membersTail ms j i0 rest))
            = skipJsWs (renderJ v j ++ membersTail ms j i0 rest) from rfl,
          skipJsWs_renderJ]
      cases ms with
      | nil =>
        have hsk2 : skipJsWs (membersTail ([] : List (Str × Json)) j i0 rest)
            = '}' :: rest := by
          rw [show membersTail ([] : List (Str × Json)) j i0 rest
              = '\n' :: (ind i0 ++ '}' :: rest) from rfl,
            skipJsWs_nl, skipJsWs_ind, skipJsWs_not_ws (by decide)]
        simp [parseJMembers, hs', parseJStrAux_round, hsk1, hPv, hsk2]
      | cons m2 ms' =>
        obtain ⟨k2, v2⟩ := m2
        have hsk2 : skipJsWs (membersTail ((k2, v2) :: ms') j i0 rest)
            = ',' :: '\n' :: (renderFields ((k2, v2) :: ms') j ++ '\n' ::
                (ind i0 ++ '}' :: rest)) := by
          rw [show membersTail ((k2, v2) :: ms') j i0 rest = ',' :: '\n' ::
              (renderFields ((k2, v2) :: ms') j ++ '\n' ::
                (ind i0 ++ '}' :: rest)) from rfl,
            skipJsWs_not_ws (by decide)]
        have hrec : parseJMembers f ('\n' :: (renderFields ((k2, v2) :: ms') j ++
            '\n' :: (ind i0 ++ '}' :: rest))) = some ((k2, v2) :: ms', rest) := by
          refine ihM k2 v2 ms' j i0 rest _ ?_ ?_
          · rw [skipJsWs_fields, jstr]
            simp [List.append_assoc]
          · simp only [fuelObj] at hf ⊢
            omega
        simp [parseJMembers, hs', parseJStrAux_round, hsk1, hPv, hsk2, hrec]


theorem fuelJ_le_renderJ : ∀ n : Nat,
    (∀ v : Json, sizeOf v ≤ n → ∀ i : Nat, fuelJ v ≤ (renderJ v i).length) ∧
    (∀ es : List Json, sizeOf es ≤ n → ∀ j : Nat, 1 ≤ j →
      fuelArr es ≤ (renderItems es j).length) ∧
    (∀ ms : List (Str × Json), sizeOf ms ≤ n → ∀ j : Nat, 1 ≤ j →
      fuelObj ms ≤ (renderFields ms j).length) := by
  intro n
  induction n with
  | zero =>
    refine ⟨?_, ?_, ?_⟩
    · intro v h
      rcases v with _ | b | s0 | es | ms <;> simp at h
    · intro es h
      rcases es with _ | ⟨e, es'⟩ <;> simp at h
    · intro ms h
      rcases ms with _ | ⟨m, ms'⟩ <;> simp at h
  | succ m ihm =>
    obtain ⟨ihP, ihQ, ihM⟩ := ihm
    refine ⟨?_, ?_, ?_⟩
    · intro v hsz i
      rcases v with _ | b | s0 | es | ms
      · simp only [fuelJ, renderJ]; decide
      · cases b <;> (simp only [fuelJ, renderJ]; decide)
      · simp only [fuelJ, renderJ, jstr, List.length_cons, List.length_append]
        omega
      · cases es with
        | nil => simp only [fuelJ, fuelArr, renderJ]; decide
        | cons e es' =>
          have hq : fuelArr (e :: es') ≤ (renderItems (e :: es') (i + 2)).length := by
            refine ihQ (e :: es') ?_ (i + 2) (by omega)
            simp only [Json.arr.sizeOf_spec] at hsz
            omega
          simp only [fuelJ, renderJ, List.length_cons, List.length_append,
            ind, List.length_replicate]
          omega
      · cases ms with
        | nil => simp only [fuelJ, fuelObj, renderJ]; decide
        | cons m ms' =>
          have hq : fuelObj (m :: ms') ≤ (renderFields (m :: ms') (i + 2)).length := by
            refine ihM (m :: ms') ?_ (i + 2) (by omega)
            simp only [Json.obj.sizeOf_spec] at hsz
            omega
          simp only [fuelJ, renderJ, List.length_cons, List.length_append,
            ind, List.length_replicate]
          omega
    · intro es hsz j hj
      cases es with
      | nil => simp [fuelArr, renderItems]
      | cons e es' =>
        simp only [List.cons.sizeOf_spec] at hsz
        have hp : fuelJ e ≤ (renderJ e j).length := ihP e (by omega) j
        cases es' with
        | nil =>
          simp only [fuelArr, renderItems, List.length_append, ind,
            List.length_replicate]
          omega
        | cons e2 es'' =>
          have hq : fuelArr (e2 :: es'') ≤ (renderItems (e2 :: es'') j).length :=
            ihQ (e2 :: es'') (by omega) j hj
          simp only [fuelArr, renderItems, List.length_append, List.length_cons,
            ind, List.length_replicate] at hq ⊢
          omega
    · intro ms hsz j hj
      cases ms with
      | nil => simp [fuelObj, renderFields]
      | cons m ms' =>
        obtain ⟨k, v⟩ := m
        simp only [List.cons.sizeOf_spec, Prod.mk.sizeOf_spec] at hsz
        have hp : fuelJ v ≤ (renderJ v j).length := ihP v (by omega) j
        cases ms' with
        | nil =>
          simp only [fuelObj, renderFields, List.length_append, List.length_cons,
            ind, List.length_replicate]
          omega
        | cons m2 ms'' =>
          have hq : fuelObj (m2 :: ms'') ≤ (renderFields (m2 :: ms'') j).length :=
            ihM (m2 :: ms'') (by omega) j hj
          simp only [fuelObj, renderFields, List.length_append, List.length_cons,
            ind, List.length_replicate] at hq ⊢
          omega

theorem segFromJson_segJson (t : DiarizedSegment) :
    segFromJson (segJson t) = some t := rfl

theorem capFromJson_capJson (c : Caption) :
    capFromJson (capJson c) = some c := rfl

theorem mapM_segFromJson : ∀ l : List DiarizedSegment,
    (l.map segJson).mapM segFromJson = some l
  | [] => rfl
  | t :: l => by
    rw [List.map_cons, List.mapM_cons, segFromJson_segJson, mapM_segFromJson l]
    rfl

theorem mapM_capFromJson : ∀ l : List Caption,
    (l.map capJson).mapM capFromJson = some l
  | [] => rfl
  | c :: l => by
    rw [List.map_cons, List.mapM_cons, capFromJson_capJson, mapM_capFromJson l]
    rfl

theorem parseJson_exportToJson (ts : List DiarizedSegment) (cs : List Caption) :
    parseJson (exportToJson ts cs) = some (snapshotJson ts cs) := by
  have hfuel : fuelJ (snapshotJson ts cs) ≤ (exportToJson ts cs).length + 1 := by
    have h := (fuelJ_le_renderJ (sizeOf (snapshotJson ts cs))).1
      (snapshotJson ts cs) le_rfl 0
    unfold exportToJson
    omega
  have hskip : skipJsWs (exportToJson ts cs)
      = renderJ (snapshotJson ts cs) 0 ++ [] := by
    have h := skipJsWs_renderJ (snapshotJson ts cs) 0 []
    simpa [exportToJson] using h
  have hp := (parse_render_fuel ((exportToJson ts cs).length + 1)).1
    (snapshotJson ts cs) 0 [] (exportToJson ts cs) hskip hfuel
  rw [parseJson, hp]
  rfl

theorem snapshotFromJson_snapshotJson (ts : List DiarizedSegment)
    (cs : List Caption) :
    snapshotFromJson (snapshotJson ts cs) = some (ts, cs) := by
  have h1 : snapshotFromJson (snapshotJson ts cs)
      = ((ts.map segJson).mapM segFromJson).bind (fun a =>
          ((cs.map capJson).mapM capFromJson).bind (fun b => some (a, b))) := rfl
  rw [h1, mapM_segFromJson, mapM_capFromJson]
  rfl


/-- C8: decoding `exportToJson` output reconstructs the segment and caption
lists exactly, and re-encoding any decode of it reproduces the original text
byte for byte. -/
theorem C8_snapshot_roundtrip (ts : List DiarizedSegment) (cs : List Caption) :
    decodeSnapshot (exportToJson ts cs) = some (ts, cs) ∧
    ∀ ts2 cs2, decodeSnapshot (exportToJson ts cs) = some (ts2, cs2) →
      exportToJson ts2 cs2 = exportToJson ts cs := by
  have hd : decodeSnapshot (exportToJson ts cs) = some (ts, cs) := by
    rw [decodeSnapshot, parseJson_exportToJson ts cs]
    exact snapshotFromJson_snapshotJson ts cs
  refine ⟨hd, ?_⟩
  intro ts2 cs2 h
  rw [hd] at h
  injection h with h2
  injection h2 with h3 h4
  rw [← h3, ← h4]

/-- Witness: the round-trip at a concrete one-segment, one-caption snapshot. -/
theorem C8_snapshot_witness :
    decodeSnapshot (exportToJson
        [⟨"Alice".toList, "00:00:01.000".toList, "00:00:02.000".toList,
          "hi there".toList⟩]
        [⟨"00:00:03.000".toList, "00:00:04.000".toList, "a caption".toList⟩])
      = some ([⟨"Alice".toList, "00:00:01.000".toList, "00:00:02.000".toList,
          "hi there".toList⟩],
        [⟨"00:00:03.000".toList, "00:00:04.000".toList, "a caption".toList⟩]) :=
  (C8_snapshot_roundtrip
    [⟨"Alice".toList, "00:00:01.000".toList, "00:00:02.000".toList,
      "hi there".toList⟩]
    [⟨"00:00:03.000".toList, "00:00:04.000".toList, "a caption".toList⟩]).1

/-! ## Claim C7 — no images entry for diagram exports -/

set_option maxHeartbeats 2000000 in
/-- C7: with `outputFormat = "diagram"`, the session-data archive never
contains an entry under `images/` (placeholder-shaped text in the document
notwithstanding), and the zip exporter does not run at all. -/
theorem C7_diagram_no_images (videoDescription userPrompt : Str)
    (ts : List DiarizedSegment) (caps : List Caption) (content : Str)
    (videoFileName : Option Str) (videoUrl : Bool)
    (extract : JSNum → Option Nat) (compressOk : Bool) (outputFormat : Str)
    (hfmt : outputFormat = "diagram".toList) :
    (∀ entries, handleExportSessionData videoDescription userPrompt ts caps
        outputFormat content videoFileName videoUrl extract compressOk
        = .ok entries →
      ∀ e ∈ entries, strStartsWith "images/".toList e.1 = false) ∧
    handleExportZipA content videoUrl outputFormat extract compressOk
      = .notRun := by
  subst hfmt
  constructor
  · intro entries h
    rcases videoFileName with _ | n
    all_goals by_cases hc : content = []
    all_goals by_cases hsub : ¬ts = [] ∨ ¬caps = []
    all_goals cases hass : exportToAssP0Events ts caps
    all_goals cases compressOk
    all_goals
      simp only [handleExportSessionData, hc, hsub, hass, eq_self_iff_true,
        not_true, and_false, false_and, if_true, if_false, ite_true, ite_false,
        Bool.false_eq_true, ExportOutcome.ok.injEq, List.cons_append,
        List.nil_append, List.append_nil, List.singleton_append,
        List.append_assoc] at h
    all_goals try subst h
    all_goals try
      simp only [List.forall_mem_cons, List.not_mem_nil, false_implies,
        implies_true, and_true]
    all_goals try ((repeat' apply And.intro) <;> rfl)
    all_goals exact ExportOutcome.noConfusion h
  · unfold handleExportZipA
    rw [if_pos (Or.inr (Or.inr rfl))]

/-- Witness: C7 at a concrete diagram-format session. -/
theorem C7_diagram_witness :
    ("diagram".toList : Str) = "diagram".toList ∧
    ((∀ entries, handleExportSessionData "d".toList "p".toList [] []
        "diagram".toList "[Image: a at 0:00:01.000]".toList
        (some "v.webm".toList) true (fun _ => none) true = .ok entries →
      ∀ e ∈ entries, strStartsWith "images/".toList e.1 = false) ∧
    handleExportZipA "[Image: a at 0:00:01.000]".toList true "diagram".toList
      (fun _ => none) true = .notRun) :=
  ⟨rfl, C7_diagram_no_images "d".toList "p".toList [] []
    "[Image: a at 0:00:01.000]".toList (some "v.webm".toList) true
    (fun _ => none) true "diagram".toList rfl⟩

end ScreenDoc
